import Mathlib

/-!
Verification development for the writer-api repository.

The repository is a small REST backend for writing projects, present in
several near-duplicate variants.  The claims under study touch three of
them, each modelled in its own namespace:

* `DbPg`   — the first variant in `src/db.pg.mjs` (oversized-document
  chunking: `splitText`, `mergeParts`, `createDoc`, `readDocs`);
* `Mjs`    — `src/server.mjs` (Writer API v2.6.3-pg: Postgres-backed
  Express routes, modelled through the `dbh._pool` fallback paths);
* `Legacy` — `src/Old server files/server.js` (Writing API v2.3.0:
  in-memory maps, soft delete / restore, tag and meta filters).

JavaScript strings are modelled as `List Char`, JS `Map`s as insertion
ordered association lists, SQL tables as lists of row structures, and the
nondeterministic pieces of the environment (uuid generation, clock) as
explicit parameters.  JS `undefined`/missing fields are `Option` values;
the `||`-style truthiness checks on strings (where `""` is falsy) are
modelled by `optTruthy` / `orElseStr`.
-/

/-- JavaScript strings, modelled as lists of characters. -/
abbrev Str := List Char

/-- Models `s.toLowerCase()` (and SQL `lower(..)`), characterwise. -/
def lowerStr (s : Str) : Str := s.map Char.toLower

/-- JS truthiness of an optional string: `undefined`, `null` and `""` are
falsy, every other string is truthy. -/
def optTruthy (o : Option Str) : Bool :=
  match o with
  | none => false
  | some s => !s.isEmpty

/-- The value of an optional string, defaulting to `""`. -/
def optVal (o : Option Str) : Str := o.getD []

/-- JS `a || b` on strings: `b` when `a` is missing or empty. -/
def orElseStr (o : Option Str) (d : Str) : Str :=
  match o with
  | none => d
  | some s => if s.isEmpty then d else s

/-- Does `s` start with `pre`?  (Char-level prefix test, used to model
JS `String.prototype.split` / `includes` on a fixed separator.) -/
def startsWith : Str → Str → Bool
  | [], _ => true
  | _ :: _, [] => false
  | a :: as, b :: bs => a == b && startsWith as bs

/-- Does the separator `sep` occur anywhere in `s`?  Models JS
`s.includes(sep)` for a non-empty `sep`. -/
def containsSub (sep : Str) : Str → Bool
  | [] => startsWith sep []
  | c :: rest => startsWith sep (c :: rest) || containsSub sep rest

/-- The prefix of `s` before the first occurrence of `sep` (the whole of
`s` when `sep` does not occur).  Models JS `s.split(sep)[0]` for a
non-empty `sep`. -/
def splitFirst (sep : Str) : Str → Str
  | [] => []
  | c :: rest => if startsWith sep (c :: rest) then [] else c :: splitFirst sep rest

/-- JS `s.trim()`: strip leading and trailing whitespace. -/
def trimStr (s : Str) : Str :=
  ((s.dropWhile Char.isWhitespace).reverse.dropWhile Char.isWhitespace).reverse

/-- Replace every maximal run of whitespace by a single copy of `r`;
models the regex replace of `\s+` by a replacement character, as used by
`makeSlug` (dash) and `normalizeTitle` (space).  `inRun` records whether
the previous character was inside a whitespace run (so only the first
character of a run emits the replacement). -/
def squashAux (r : Char) (inRun : Bool) : Str → Str
  | [] => []
  | c :: rest =>
    if c.isWhitespace then
      if inRun then squashAux r true rest else r :: squashAux r true rest
    else c :: squashAux r false rest

/-- The whitespace-run replacement, starting outside a run. -/
def squashWsWith (r : Char) (s : Str) : Str := squashAux r false s

/-- The `makeSlug` helper from both servers:
`String(s||'').toLowerCase().trim().replace(/\s+/g,'-')`. -/
def makeSlug (s : Str) : Str := squashWsWith '-' (trimStr (lowerStr s))

/-- JS `s.split(',')`: the comma-separated segments of `s` (empty
segments included, as in JS). -/
def splitOnComma : Str → List Str
  | [] => [[]]
  | c :: rest =>
    match splitOnComma rest with
    | [] => if c == ',' then [[], []] else [[c]]
    | seg :: segs => if c == ',' then [] :: seg :: segs else (c :: seg) :: segs

/-- First-occurrence deduplication with an accumulator of already-seen
strings; models the iteration order of a JS `Set`. -/
def dedupAux (seen : List Str) : List Str → List Str
  | [] => []
  | x :: xs => if seen.contains x then dedupAux seen xs else x :: dedupAux (x :: seen) xs

/-- First-occurrence deduplication, as JS `Array.from(new Set(xs))`. -/
def dedup (l : List Str) : List Str := dedupAux [] l

/-- The decimal digit character for `d < 10`. -/
def digitChar (d : Nat) : Char := Char.ofNat (48 + d)

/-- Decimal rendering of a natural number, as produced by the JS template
interpolation of a number (`` `${n}` ``). -/
def decRepr (n : Nat) : Str :=
  if n = 0 then ['0'] else (Nat.digits 10 n).reverse.map digitChar

/-- Decimal parsing, used only to prove `decRepr` injective. -/
def decVal (s : Str) : Nat :=
  s.foldl (fun a c => a * 10 + (c.toNat - 48)) 0

/-! ## The oversized-document chunking model (`src/db.pg.mjs`, variant 1) -/

namespace DbPg

/-- A row of the `writing.misc` table as used by the first `db.pg.mjs`
variant.  `book_id` is always the constant default uuid in this variant
and is omitted; timestamps are not consulted by the modelled code. -/
structure Row where
  id : Str
  doc_type : Str
  title : Str
  body : Str
  tags : List Str
  meta : List (Str × Str)
  deriving Repr, DecidableEq

/-- Models `splitText(text, maxLen = 8000)`: successive fixed-size slices of
`text`.  The JS loop `while (i < text.length) parts.push(text.slice(i, i+maxLen))`
never terminates for `maxLen = 0`; the code only ever calls it with the
default 8000, and the model returns `[]` in that unreachable case. -/
def splitText : Str → Nat → List Str
  | [], _ => []
  | _ :: _, 0 => []
  | c :: rest, m + 1 => (c :: rest).take (m + 1) :: splitText (rest.drop m) (m + 1)
termination_by text _ => text.length
decreasing_by
  simp only [List.length_cons, List.length_drop]
  omega

/-- The part-id separator `"-p"`. -/
def dashP : Str := '-' :: 'p' :: []

/-- The base id a row is grouped under by `mergeParts`:
`row.id.includes("-p") ? row.id.split("-p")[0] : row.id`.  When `"-p"`
does not occur, `splitFirst` already returns the whole id, so the two JS
branches coincide with this single expression. -/
def baseId (id : Str) : Str := splitFirst dashP id

/-- One step of the `mergeParts` grouping loop.  The JS object `grouped`
preserves key insertion order; it is modelled as an association list.  A
fresh key is seeded with `{ ...row, id: baseId, body: "" }` and then has
`row.body` appended, i.e. its body is `row.body`. -/
def mergeStep (acc : List (Str × Row)) (row : Row) : List (Str × Row) :=
  let b := baseId row.id
  if acc.any (fun p => p.1 = b) then
    acc.map (fun p => if p.1 = b then (p.1, { p.2 with body := p.2.body ++ row.body }) else p)
  else
    acc ++ [(b, { row with id := b })]

/-- Models `mergeParts(rows)`: group rows by `baseId`, concatenating bodies in
row order; `Object.values` returns the groups in insertion order. -/
def mergeParts (rows : List Row) : List Row :=
  (rows.foldl mergeStep []).map (fun p => p.2)

/-- Models `INSERT ... ON CONFLICT (id) DO UPDATE SET title, body, tags, meta`:
an existing row with the same id keeps its place (and its `doc_type`),
otherwise the row is appended. -/
def upsertRow (db : List Row) (r : Row) : List Row :=
  if db.any (fun x => x.id = r.id) then
    db.map (fun x =>
      if x.id = r.id then { x with title := r.title, body := r.body, tags := r.tags, meta := r.meta }
      else x)
  else db ++ [r]

/-- The create-doc request payload (`payload` in the JS). -/
structure Payload where
  id : Option Str
  doc_type : Str
  title : Str
  body_md : Option Str
  tags : Option (List Str)
  meta : Option (List (Str × Str))

/-- The extra top-level request fields consulted by `createDoc`. -/
structure TopLevel where
  tags : Option (List Str) := none
  meta : Option (List (Str × Str)) := none

/-- What `createDoc` returns: a single upserted row, or the oversized
summary `{ id, parts, results }`. -/
inductive CreateResult where
  | single (row : Row)
  | oversized (id : Str) (parts : Nat) (results : List Row)
  deriving Repr, DecidableEq

/-- The title infix `" (Part "`. -/
def partMid : Str := ' ' :: '(' :: 'P' :: 'a' :: 'r' :: 't' :: ' ' :: []

/-- The rows written by the oversized-branch loop of `createDoc`
(`for (idx = 0; idx < parts.length; idx++) ...`): part `idx` (0-based)
gets id `` `${id}-p${idx+1}` `` and title `` `${title} (Part ${idx+1})` ``,
with body `parts[idx]`. -/
def partRows (id doc_type title : Str) (tags : List Str) (meta : List (Str × Str))
    (parts : List Str) : List Row :=
  (List.range parts.length).map (fun idx =>
    { id := id ++ dashP ++ decRepr (idx + 1)
      doc_type := doc_type
      title := title ++ partMid ++ decRepr (idx + 1) ++ (')' :: [])
      body := parts.getD idx []
      tags := tags
      meta := meta })

/-- Models `createDoc(project_name, payload, topLevel)` against a database state
`db`; `freshId` stands for the `uuidv4()` drawn when `payload.id` is
missing or empty.  Bodies longer than 8000 characters are split into
parts and each part row is upserted in order; otherwise one row is
upserted. -/
def createDoc (freshId : Str) (payload : Payload) (topLevel : TopLevel)
    (db : List Row) : List Row × CreateResult :=
  let id := orElseStr payload.id freshId
  let tags := payload.tags.getD (topLevel.tags.getD [])
  let meta := payload.meta.getD (topLevel.meta.getD [])
  let body := payload.body_md.getD []
  if 8000 < body.length then
    let rows := partRows id payload.doc_type payload.title tags meta (splitText body 8000)
    (rows.foldl upsertRow db, .oversized id rows.length rows)
  else
    let row : Row :=
      { id := id, doc_type := payload.doc_type, title := payload.title
        body := body, tags := tags, meta := meta }
    (upsertRow db row, .single row)

/-- SQL `LIKE` pattern matching (`%` = any sequence, `_` = any char). -/
def likeMatch : Str → Str → Bool
  | [], s => s.isEmpty
  | '%' :: p, s =>
    likeMatch p s ||
      (match s with
       | [] => false
       | _ :: s' => likeMatch ('%' :: p) s')
  | '_' :: p, s =>
    (match s with
     | [] => false
     | _ :: s' => likeMatch p s')
  | c :: p, s =>
    (match s with
     | [] => false
     | d :: s' => c == d && likeMatch p s')
termination_by p s => (p.length, s.length)

/-- SQL `ILIKE`: case-insensitive `LIKE`. -/
def ilike (pat s : Str) : Bool := likeMatch (lowerStr pat) (lowerStr s)

/-- The optional filters accepted by `readDocs`. -/
structure ReadFilters where
  doc_type : Option Str := none
  title : Option Str := none

/-- Models `readDocs(filters)`: `SELECT * FROM writing.misc` with the optional
`doc_type = $n` and `title ILIKE $n` conjuncts, then `mergeParts`.  The
SQL has no ORDER BY; the model returns rows in table (insertion) order,
which is the sequential-write order. -/
def readDocs (filters : ReadFilters) (db : List Row) : List Row :=
  let rows := db.filter (fun r =>
    (match filters.doc_type with
     | none => true
     | some t => r.doc_type = t) &&
    (match filters.title with
     | none => true
     | some pat => ilike pat r.title))
  mergeParts rows

end DbPg

/-! ## The current Postgres server model (`src/server.mjs`, v2.6.3-pg)

The db handle used by `server.mjs` exposes no `findProjectByName`,
`createDoc`, `listDocs` &c. methods, so the routes run their inline
`dbh._pool.query` fallback paths; those are what is modelled here.  SQL
tables are lists of rows in insertion order, `insert` appends, `update`
maps over the list, and `select ... limit 1` is `List.find?`.
`created_at`/`updated_at` timestamps are carried by no row model because
no modelled claim depends on result ordering. -/

namespace Mjs

/-- A row of the `projects` table. -/
structure Project where
  id : Str
  name : Str
  slug : Str
  kind : Str
  parent_id : Option Str
  confirmed : Bool
  require_confirmation : Bool
  blocked : Bool
  deleted_at : Option Str
  deriving Repr, DecidableEq

/-- A row of the `docs` (or legacy `documents`) table. -/
structure DocRow where
  id : Str
  project_id : Str
  doc_type : Str
  title : Str
  body_md : Str
  tags : List Str
  meta : List (Str × Str)
  deleted_at : Option Str
  deriving Repr, DecidableEq

/-- The database state seen by the routes. -/
structure State where
  projects : List Project
  docs : List DocRow
  deriving Repr, DecidableEq

/-- An HTTP response: status code plus the optional JSON `error` field
of the body (`res.json` with no error has status 200). -/
structure HRes where
  status : Nat
  error : Option Str
  deriving Repr, DecidableEq

/-- A 200 response with no error field. -/
def resOk : HRes := { status := 200, error := none }

/-- An error response: `res.status(code).json({ error: msg })`. -/
def resErr (status : Nat) (msg : Str) : HRes := { status := status, error := some msg }

/-- Models `select * from projects where lower(name)=lower($1) and
deleted_at is null limit 1`. -/
def findLiveProjectByName (projects : List Project) (name : Str) : Option Project :=
  projects.find? (fun p => decide (lowerStr p.name = lowerStr name ∧ p.deleted_at = none))

/-- Models `select * from <docs> where id=$1 and project_id=$2 and
deleted_at is null limit 1`. -/
def findLiveDoc (docs : List DocRow) (id pid : Str) : Option DocRow :=
  docs.find? (fun d => decide (d.id = id ∧ d.project_id = pid ∧ d.deleted_at = none))

/-- Models `POST /projects` (fallback path): 400 when `name` is missing or
empty, 409 when a live project with the same lowercased name exists,
otherwise insert a row with `confirmed=false, require_confirmation=true,
blocked=false`.  `kind` and `parent_id` are the destructured request
values (`kind` defaults to `'book'`); `freshId` is the `genId()` draw. -/
def postProjects (freshId : Str) (name : Option Str) (kind : Str) (parent_id : Option Str)
    (st : State) : HRes × State :=
  if !(optTruthy name) then
    (resErr 400 (("name required").data), st)
  else
    match findLiveProjectByName st.projects (optVal name) with
    | some _ => (resErr 409 (("name already exists").data), st)
    | none =>
      let proj : Project :=
        { id := freshId, name := optVal name, slug := makeSlug (optVal name), kind := kind
          parent_id := parent_id, confirmed := false, require_confirmation := true
          blocked := false, deleted_at := none }
      (resOk, { st with projects := st.projects ++ [proj] })

/-- Models `update projects set confirmed=true, require_confirmation=false
where id=$1`. -/
def confirmUpdate (projects : List Project) (pid : Str) : List Project :=
  projects.map (fun p =>
    if p.id = pid then { p with confirmed := true, require_confirmation := false } else p)

/-- The project lookup of `POST /projects/confirm` (fallback path): by id,
else by lowercased name, else by slug — each `limit 1` and, unlike the
other routes, with no `deleted_at` condition. -/
def findProjectAny (projects : List Project) (id name slug : Option Str) : Option Project :=
  if optTruthy id then projects.find? (fun p => decide (p.id = optVal id))
  else if optTruthy name then
    projects.find? (fun p => decide (lowerStr p.name = lowerStr (optVal name)))
  else if optTruthy slug then projects.find? (fun p => decide (p.slug = optVal slug))
  else none

/-- Models `POST /projects/confirm`: resolve the project, 404 when absent,
otherwise run `confirmUpdate` on its id. -/
def postProjectsConfirm (id name slug : Option Str) (st : State) : HRes × State :=
  match findProjectAny st.projects id name slug with
  | none => (resErr 404 (("project not found").data), st)
  | some proj => (resOk, { st with projects := confirmUpdate st.projects proj.id })

/-- A `POST /doc` request body after destructuring (`body_md = ''`,
`tags = []`, `meta = {}` defaults applied). -/
structure DocReq where
  project_name : Option Str
  doc_type : Option Str
  title : Option Str
  body_md : Str := []
  tags : List Str := []
  meta : List (Str × Str) := []

/-- Models `POST /doc`: 400 when `project_name`, `doc_type` or `title` is
missing/empty; 404 when no live project matches the name; 412 when the
project has `require_confirmation` and not `confirmed` and the
`ALLOW_AUTOCONFIRM` toggle (`allow`) is unset; otherwise insert the doc
row (`freshId` is the `genId()` draw). -/
def postDoc (allow : Bool) (freshId : Str) (req : DocReq) (st : State) : HRes × State :=
  if !(optTruthy req.project_name) || !(optTruthy req.doc_type) || !(optTruthy req.title) then
    (resErr 400 (("project_name, doc_type, title required").data), st)
  else
    match findLiveProjectByName st.projects (optVal req.project_name) with
    | none => (resErr 404 (("project not found").data), st)
    | some proj =>
      if proj.require_confirmation && !proj.confirmed && !allow then
        (resErr 412 (("project not confirmed").data), st)
      else
        let row : DocRow :=
          { id := freshId, project_id := proj.id, doc_type := optVal req.doc_type
            title := optVal req.title, body_md := req.body_md, tags := req.tags
            meta := req.meta, deleted_at := none }
        (resOk, { st with docs := st.docs ++ [row] })

/-- One element of the `docs[]` array of `POST /lyra/ingest`, after the
per-item destructuring defaults. -/
structure IngestItem where
  id : Option Str
  doc_type : Option Str
  title : Option Str
  body_md : Str := []
  tags : List Str := []
  meta : List (Str × Str) := []

/-- One element of the `results` array returned by `POST /lyra/ingest`. -/
structure IngestRes where
  ok : Bool
  id : Option Str
  mode : Option Str
  error : Option Str
  deriving Repr, DecidableEq

/-- The per-item body of the `POST /lyra/ingest` loop: skip items missing
`doc_type`/`title`; when an `id` is given and a live doc with that id in
the project exists, update it, else insert a fresh row. -/
def ingestStep (projId freshId : Str) (docs : List DocRow) (item : IngestItem) :
    List DocRow × IngestRes :=
  if !(optTruthy item.doc_type) || !(optTruthy item.title) then
    (docs, { ok := false, id := none, mode := none
             error := some (("doc_type and title required").data) })
  else
    let ins : List DocRow × IngestRes :=
      (docs ++ [{ id := freshId, project_id := projId, doc_type := optVal item.doc_type
                  title := optVal item.title, body_md := item.body_md, tags := item.tags
                  meta := item.meta, deleted_at := none }],
       { ok := true, id := some freshId, mode := some (("create").data), error := none })
    if optTruthy item.id then
      match findLiveDoc docs (optVal item.id) projId with
      | some _ =>
        (docs.map (fun d =>
           if d.id = optVal item.id then
             { d with doc_type := optVal item.doc_type, title := optVal item.title
                      body_md := item.body_md, tags := item.tags, meta := item.meta }
           else d),
         { ok := true, id := item.id, mode := some (("update").data), error := none })
      | none => ins
    else ins

/-- The `POST /lyra/ingest` loop over the items; `freshIds i` is the
`genId()` draw for the `i`-th item. -/
def ingestLoop (projId : Str) (freshIds : Nat → Str) :
    Nat → List DocRow → List IngestItem → List DocRow × List IngestRes
  | _, docs, [] => (docs, [])
  | i, docs, item :: rest =>
    let step := ingestStep projId (freshIds i) docs item
    let tail := ingestLoop projId freshIds (i + 1) step.1 rest
    (tail.1, step.2 :: tail.2)

/-- Models `POST /lyra/ingest`: 400 when `project_name` or the `docs[]`
array is missing/empty, 404 when no live project matches, 412 on the
confirmation gate, otherwise process the items. -/
def lyraIngest (allow : Bool) (freshIds : Nat → Str) (project_name : Option Str)
    (items : List IngestItem) (st : State) : HRes × State × List IngestRes :=
  if !(optTruthy project_name) || items.isEmpty then
    (resErr 400 (("project_name and docs[] required").data), st, [])
  else
    match findLiveProjectByName st.projects (optVal project_name) with
    | none => (resErr 404 (("project not found").data), st, [])
    | some proj =>
      if proj.require_confirmation && !proj.confirmed && !allow then
        (resErr 412 (("project not confirmed").data), st, [])
      else
        let r := ingestLoop proj.id freshIds 0 st.docs items
        (resOk, { st with docs := r.1 }, r.2)

/-- A `POST /lyra/paste-save` request after destructuring (defaults
`docMode = 'create'`, `sceneWriteMode = 'overwrite'`, payload defaults
applied). -/
structure PasteReq where
  project_name : Option Str
  docMode : Str := ("create").data
  sceneWriteMode : Str := ("overwrite").data
  id : Option Str := none
  doc_type : Option Str
  title : Option Str
  body_md : Str := []
  tags : List Str := []
  meta : List (Str × Str) := []

/-- Models `POST /lyra/paste-save`: validation (400), live-project lookup
(404), the confirmation gate (412), then update (with optional append) or
create. -/
def pasteSave (allow : Bool) (freshId : Str) (req : PasteReq) (st : State) : HRes × State :=
  if !(optTruthy req.project_name) || !(optTruthy req.doc_type) || !(optTruthy req.title) then
    (resErr 400 (("project_name, doc_type, title required").data), st)
  else
    match findLiveProjectByName st.projects (optVal req.project_name) with
    | none => (resErr 404 (("project not found").data), st)
    | some proj =>
      if proj.require_confirmation && !proj.confirmed && !allow then
        (resErr 412 (("project not confirmed").data), st)
      else
        if req.docMode = ("update").data then
          if !(optTruthy req.id) then (resErr 400 (("id required for update").data), st)
          else
            match findLiveDoc st.docs (optVal req.id) proj.id with
            | none => (resErr 404 (("doc not found").data), st)
            | some ex =>
              let nextBody :=
                if req.sceneWriteMode = ("append").data then
                  ex.body_md ++ ('\n' :: []) ++ req.body_md
                else req.body_md
              (resOk, { st with docs := st.docs.map (fun d =>
                 if d.id = optVal req.id then
                   { d with doc_type := optVal req.doc_type, title := optVal req.title
                            body_md := nextBody, tags := req.tags, meta := req.meta }
                 else d) })
        else
          let row : DocRow :=
            { id := freshId, project_id := proj.id, doc_type := optVal req.doc_type
              title := optVal req.title, body_md := req.body_md, tags := req.tags
              meta := req.meta, deleted_at := none }
          (resOk, { st with docs := st.docs ++ [row] })

/-- The `wantTags` list of `GET /lyra/read`:
`String(q.tags).split(',').map(trim).filter(Boolean)` when `q.tags` is
truthy, else `[]`. -/
def lyraWantTags (tagsParam : Option Str) : List Str :=
  if optTruthy tagsParam then
    ((splitOnComma (optVal tagsParam)).map trimStr).filter (fun t => !t.isEmpty)
  else []

/-- The tags-filter step of `GET /lyra/read` (server.mjs): skipped when
`wantTags` is empty; otherwise mode `'any'` keeps docs sharing at least
one wanted tag and any other mode (default `'all'`) keeps docs containing
every wanted tag.  A doc's `tags` field is its array (non-arrays read as
`[]` in the JS, which the model's typed field makes vacuous). -/
def tagFilterMjs (docs : List DocRow) (tagsParam tagsModeParam : Option Str) : List DocRow :=
  let wantTags := lyraWantTags tagsParam
  if wantTags.isEmpty then docs
  else
    let mode := lowerStr (orElseStr tagsModeParam (("all").data))
    docs.filter (fun d =>
      if mode = ("any").data then wantTags.any (fun x => d.tags.contains x)
      else wantTags.all (fun x => d.tags.contains x))

end Mjs

/-! ## The legacy in-memory server model (`src/Old server files/server.js`, v2.3.0)

JS `Map`s are modelled as insertion-ordered association lists: `set` on an
existing key replaces in place, otherwise appends; `values()` iterates in
insertion order.  The route responses send docs through `mapDoc` (a field
renaming that drops the markers and adds a `deleted` flag); the models
below return the selected rows themselves, which carry the same data. -/

namespace Legacy

/-- A value of the in-memory `db.projects` map. -/
structure ProjectJs where
  id : Str
  name : Str
  slug : Str
  kind : Str
  parent_id : Option Str
  confirmed : Bool
  require_confirmation : Bool
  blocked : Bool
  created_at : Str
  updated_at : Str
  deleted_at : Option Str
  deleted_by : Option Str
  deriving Repr, DecidableEq

/-- A value of the in-memory `db.docs` map. -/
structure DocJs where
  id : Str
  project_id : Str
  doc_type : Str
  title : Str
  body_md : Str
  tags : List Str
  meta : List (Str × Str)
  created_at : Str
  updated_at : Str
  deleted_at : Option Str
  deleted_by : Option Str
  deriving Repr, DecidableEq

/-- JS `map.get(k)`. -/
def mapGet {α : Type} (m : List (Str × α)) (k : Str) : Option α :=
  (m.find? (fun p => decide (p.1 = k))).map (fun p => p.2)

/-- JS `map.set(k, v)`: replace in place, else append. -/
def mapSet {α : Type} (m : List (Str × α)) (k : Str) (v : α) : List (Str × α) :=
  if m.any (fun p => decide (p.1 = k)) then
    m.map (fun p => if p.1 = k then (k, v) else p)
  else m ++ [(k, v)]

/-- JS `map.delete(k)`. -/
def mapDel {α : Type} (m : List (Str × α)) (k : Str) : List (Str × α) :=
  m.filter (fun p => decide (¬ p.1 = k))

/-- JS `map.has(k)`. -/
def mapHas {α : Type} (m : List (Str × α)) (k : Str) : Bool :=
  m.any (fun p => decide (p.1 = k))

/-- JS `Array.from(map.values())`. -/
def mapValues {α : Type} (m : List (Str × α)) : List α :=
  m.map (fun p => p.2)

/-- The whole in-memory state: `db.projects`, `db.docs`, `db.trash` and
the `DEFAULT_PROJECT_ID` module variable. -/
structure JsState where
  projects : List (Str × ProjectJs)
  docs : List (Str × DocJs)
  trashProjects : List (Str × ProjectJs)
  trashDocs : List (Str × DocJs)
  defaultProjectId : Option Str
  deriving Repr, DecidableEq

/-- An HTTP response: status plus the optional `error` field. -/
structure HRes where
  status : Nat
  error : Option Str
  deriving Repr, DecidableEq

/-- A 200 response. -/
def resOk : HRes := { status := 200, error := none }

/-- An error response. -/
def resErr (status : Nat) (msg : Str) : HRes := { status := status, error := some msg }

/-- Models `findProjectByName`: the first project (in insertion order)
whose name equals `name` exactly — soft-deleted projects included, as in
the JS. -/
def findProjectByName (st : JsState) (name : Str) : Option ProjectJs :=
  (mapValues st.projects).find? (fun p => decide (p.name = name))

/-- The `normalizeTitle` helper: lowercase, collapse internal whitespace
runs to single spaces, trim. -/
def normalizeTitle (s : Str) : Str := trimStr (squashWsWith ' ' (lowerStr s))

/-- The candidate project picked by the `resolveProjectId` middleware:
by body `project_id`, else body/query `project_name`, else the
`x-project-id` header, else `DEFAULT_PROJECT_ID`. -/
def rawResolve (st : JsState) (project_id project_name headerPid : Option Str) :
    Option ProjectJs :=
  if optTruthy project_id then mapGet st.projects (optVal project_id)
  else if optTruthy project_name then findProjectByName st (optVal project_name)
  else if optTruthy headerPid then mapGet st.projects (optVal headerPid)
  else if optTruthy st.defaultProjectId then mapGet st.projects (optVal st.defaultProjectId)
  else none

/-- Models the `resolveProjectId` middleware: the raw candidate, rejected
(the middleware responds 400) when absent or soft-deleted. -/
def resolveProject (st : JsState) (project_id project_name headerPid : Option Str) :
    Option ProjectJs :=
  match rawResolve st project_id project_name headerPid with
  | some p => if p.deleted_at = none then some p else none
  | none => none

/-- The outcome of the `requireConfirmedProject` middleware. -/
inductive Gate where
  | blocked403
  | notConfirmed412
  | proceed (p : ProjectJs)
  deriving Repr, DecidableEq

/-- Models `requireConfirmedProject`: 403 when the project is blocked;
412 when it requires confirmation and is unconfirmed and the
`ALLOW_AUTOCONFIRM` toggle is unset; with the toggle set the project is
auto-confirmed in place and the request proceeds. -/
def requireConfirmedProject (allow : Bool) (now : Str) (p : ProjectJs) : Gate :=
  if p.blocked then .blocked403
  else if p.require_confirmation && !p.confirmed then
    if allow then
      .proceed { p with confirmed := true, require_confirmation := false
                        blocked := false, updated_at := now }
    else .notConfirmed412
  else .proceed p

/-- Models `softDeleteDoc(doc, who)` plus the surrounding state effect:
mark the doc (only if not already marked), store the marked copy in the
live map (the JS mutates in place) and in the trash. -/
def softDeleteDoc (st : JsState) (now who : Str) (d : DocJs) : JsState :=
  let d' := if d.deleted_at = none
    then { d with deleted_at := some now, deleted_by := some who } else d
  { st with docs := mapSet st.docs d.id d', trashDocs := mapSet st.trashDocs d.id d' }

/-- Models `softDeleteProject(proj, who)` analogously. -/
def softDeleteProject (st : JsState) (now who : Str) (p : ProjectJs) : JsState :=
  let p' := if p.deleted_at = none
    then { p with deleted_at := some now, deleted_by := some who } else p
  { st with projects := mapSet st.projects p.id p'
            trashProjects := mapSet st.trashProjects p.id p' }

/-- The tag portion of a query: `?tag=` values (repeatable), the
comma-separated `?tags=` value and `?tagsMode=`.  A single falsy `tag`
value is dropped by the JS (`else if (query.tag)`), so it is represented
here as the empty list. -/
structure TagQuery where
  tag : List Str := []
  tags : Option Str := none
  tagsMode : Option Str := none

/-- The `wanted` list of `applyTagFilter`: the repeatable `tag` params
plus the split/trimmed/non-empty `tags` segments, first-occurrence
deduplicated (`Array.from(new Set(...))`). -/
def collectWanted (q : TagQuery) : List Str :=
  dedup (q.tag ++
    (if optTruthy q.tags then
      ((splitOnComma (optVal q.tags)).map trimStr).filter (fun t => !t.isEmpty)
     else []))

/-- Models `applyTagFilter(items, query)`: no wanted tags keeps
everything; mode `'any'` keeps docs sharing at least one wanted tag; any
other mode (default `'all'`) keeps docs containing every wanted tag. -/
def applyTagFilter (items : List DocJs) (q : TagQuery) : List DocJs :=
  let tagsMode := lowerStr (orElseStr q.tagsMode (("all").data))
  let wanted := collectWanted q
  if wanted.isEmpty then items
  else items.filter (fun d =>
    if tagsMode = ("any").data then wanted.any (fun t => d.tags.contains t)
    else wanted.all (fun t => d.tags.contains t))

/-- JS `String(m[mk])`: the stored value, or the string `"undefined"`
when the key is absent. -/
def metaGetStr (meta : List (Str × Str)) (k : Str) : Str :=
  match meta.find? (fun p => decide (p.1 = k)) with
  | some p => p.2
  | none => ("undefined").data

/-- Models `applyMetaFilter(items, query)`: every `meta.<k>=<v>` pair
must match (`String(m[mk]) === String(mv)`). -/
def applyMetaFilter (items : List DocJs) (metaPairs : List (Str × Str)) : List DocJs :=
  if metaPairs.isEmpty then items
  else items.filter (fun d =>
    metaPairs.all (fun mv => decide (metaGetStr d.meta mv.1 = mv.2)))

/-- A read-route query (`GET /doc`, `GET /lyra/read`,
`GET /lyra/read-stream`). -/
structure ReadQuery where
  project_id : Option Str := none
  project_name : Option Str := none
  headerPid : Option Str := none
  id : Option Str := none
  title : Option Str := none
  doc_type : Option Str := none
  ci : Str := ("false").data
  tagq : TagQuery := {}
  metaPairs : List (Str × Str) := []

/-- The title/doc_type filter steps shared by the read routes. -/
def titleTypeFilter (q : ReadQuery) (items : List DocJs) : List DocJs :=
  let items := if optTruthy q.title then
      (if q.ci = ("true").data then
        items.filter (fun d => decide (normalizeTitle d.title = normalizeTitle (optVal q.title)))
       else items.filter (fun d => decide (d.title = optVal q.title)))
    else items
  if optTruthy q.doc_type then items.filter (fun d => decide (d.doc_type = optVal q.doc_type))
  else items

/-- Models `GET /doc`: resolve the project (400 on failure), select its
live docs, apply title/type/tag/meta filters, respond with the list. -/
def getDocList (st : JsState) (q : ReadQuery) : HRes × List DocJs :=
  match resolveProject st q.project_id q.project_name q.headerPid with
  | none => (resErr 400 (("project resolution failed").data), [])
  | some proj =>
    let items := (mapValues st.docs).filter
      (fun d => decide (d.project_id = proj.id ∧ d.deleted_at = none))
    let items := titleTypeFilter q items
    let items := applyTagFilter items q.tagq
    let items := applyMetaFilter items q.metaPairs
    (resOk, items)

/-- Models `GET /doc/:id`: 404 when the doc is absent, in another
project, or soft-deleted. -/
def getDocById (st : JsState) (docId : Str) (q : ReadQuery) : HRes × Option DocJs :=
  match resolveProject st q.project_id q.project_name q.headerPid with
  | none => (resErr 400 (("project resolution failed").data), none)
  | some proj =>
    match mapGet st.docs docId with
    | none => (resErr 404 (("doc not found").data), none)
    | some doc =>
      if doc.project_id ≠ proj.id ∨ doc.deleted_at ≠ none then
        (resErr 404 (("doc not found").data), none)
      else (resOk, some doc)

/-- Models `GET /lyra/read`: id lookup takes precedence (404 when absent,
foreign or deleted); otherwise filter the project's live docs by
title/type/tags/meta; 404 on no matches. -/
def lyraRead (st : JsState) (q : ReadQuery) : HRes × List DocJs :=
  match resolveProject st q.project_id q.project_name q.headerPid with
  | none => (resErr 400 (("project resolution failed").data), [])
  | some proj =>
    if optTruthy q.id then
      match mapGet st.docs (optVal q.id) with
      | none => (resErr 404 (("doc not found").data), [])
      | some doc =>
        if doc.project_id ≠ proj.id ∨ doc.deleted_at ≠ none then
          (resErr 404 (("doc not found").data), [])
        else (resOk, [doc])
    else
      let candidates := (mapValues st.docs).filter
        (fun d => decide (d.project_id = proj.id ∧ d.deleted_at = none))
      let candidates := titleTypeFilter q candidates
      let candidates := applyTagFilter candidates q.tagq
      let candidates := candidates.filter (fun d =>
        q.metaPairs.all (fun mv => decide (metaGetStr d.meta mv.1 = mv.2)))
      if candidates.isEmpty then (resErr 404 (("no matches").data), [])
      else (resOk, candidates)

/-- Models the document selection of `GET /lyra/read-stream`: the single
doc whose body is then streamed (`none` models the error event). -/
def readStreamDoc (st : JsState) (q : ReadQuery) : Option DocJs :=
  match resolveProject st q.project_id q.project_name q.headerPid with
  | none => none
  | some proj =>
    if optTruthy q.id then
      match mapGet st.docs (optVal q.id) with
      | none => none
      | some doc =>
        if doc.project_id ≠ proj.id ∨ doc.deleted_at ≠ none then none
        else some doc
    else
      let candidates := (mapValues st.docs).filter
        (fun d => decide (d.project_id = proj.id ∧ d.deleted_at = none))
      let candidates := titleTypeFilter q candidates
      let candidates := applyTagFilter candidates q.tagq
      let candidates := applyMetaFilter candidates q.metaPairs
      candidates.head?

/-- Models legacy `POST /doc`: `resolveProjectId`, then
`requireConfirmedProject` (which may auto-confirm in place), then field
validation and insertion. -/
def postDocJs (allow : Bool) (freshId now : Str)
    (project_id project_name headerPid doc_type title : Option Str)
    (body_md : Str) (tags : List Str) (meta : List (Str × Str))
    (st : JsState) : HRes × JsState :=
  match resolveProject st project_id project_name headerPid with
  | none => (resErr 400 (("project resolution failed").data), st)
  | some proj =>
    match requireConfirmedProject allow now proj with
    | .blocked403 => (resErr 403 (("project is blocked").data), st)
    | .notConfirmed412 => (resErr 412 (("project not confirmed").data), st)
    | .proceed p' =>
      let st1 := { st with projects := mapSet st.projects proj.id p' }
      if !(optTruthy doc_type) || !(optTruthy title) then
        (resErr 400 (("doc_type and title required").data), st1)
      else
        let doc : DocJs :=
          { id := freshId, project_id := proj.id, doc_type := optVal doc_type
            title := optVal title, body_md := body_md, tags := tags, meta := meta
            created_at := now, updated_at := now, deleted_at := none, deleted_by := none }
        (resOk, { st1 with docs := mapSet st1.docs freshId doc })

/-- Models `DELETE /doc/:id` with its `?purge=` query and the optional
`x-confirm-title` header. -/
def deleteDocEp (st : JsState) (docId : Str) (purge : Str) (confirmTitle : Option Str)
    (now : Str) : HRes × JsState :=
  match mapGet st.docs docId with
  | none =>
    if purge = ("true").data ∧ mapHas st.trashDocs docId then
      (resOk, { st with trashDocs := mapDel st.trashDocs docId
                        docs := mapDel st.docs docId })
    else (resErr 404 (("doc not found").data), st)
  | some doc =>
    if optTruthy confirmTitle ∧ optVal confirmTitle ≠ doc.title then
      (resErr 412 (("confirmation title mismatch").data), st)
    else
      let st1 := softDeleteDoc st now (("api").data) doc
      if purge = ("true").data then
        (resOk, { st1 with trashDocs := mapDel st1.trashDocs docId
                           docs := mapDel st1.docs docId })
      else (resOk, st1)

/-- Models `POST /doc/:id/restore`: take the trash snapshot, strip the
`deleted_at`/`deleted_by` markers, put it back in the live map and drop
it from the trash. -/
def restoreDocEp (st : JsState) (docId : Str) : HRes × JsState :=
  match mapGet st.trashDocs docId with
  | none => (resErr 404 (("not found in trash").data), st)
  | some snap =>
    let restored := { snap with deleted_at := none, deleted_by := none }
    (resOk, { st with docs := mapSet st.docs docId restored
                      trashDocs := mapDel st.trashDocs docId })

/-- Models `DELETE /projects/:id` with `?cascade=`, `?purge=` and the
`x-confirm-name` header. -/
def deleteProjectEp (st : JsState) (projId : Str) (cascade purge : Str)
    (confirmName : Option Str) (now : Str) : HRes × JsState :=
  match mapGet st.projects projId with
  | none =>
    if purge = ("true").data ∧ mapHas st.trashProjects projId then
      (resOk, { st with trashProjects := mapDel st.trashProjects projId
                        projects := mapDel st.projects projId })
    else (resErr 404 (("project not found").data), st)
  | some proj =>
    if ¬ optTruthy confirmName ∨ optVal confirmName ≠ proj.name then
      (resErr 412 (("confirmation required").data), st)
    else
      let children := (mapValues st.docs).filter
        (fun d => decide (d.project_id = proj.id ∧ d.deleted_at = none))
      if ¬ children.isEmpty ∧ cascade ≠ ("true").data then
        (resErr 409 (("project has documents").data), st)
      else
        let st1 := if cascade = ("true").data then
            children.foldl (fun s d => softDeleteDoc s now (("cascade").data) d) st
          else st
        let st2 := softDeleteProject st1 now (("api").data) proj
        if purge = ("true").data then
          (resOk, { st2 with
            trashDocs := st2.trashDocs.filter (fun p => decide (¬ p.2.project_id = proj.id))
            trashProjects := mapDel st2.trashProjects projId
            projects := mapDel st2.projects projId })
        else (resOk, st2)

/-- Models legacy `POST /projects/:id/confirm` on the resolved project:
set `confirmed`, clear `require_confirmation` and `blocked`, touch
`updated_at`. -/
def confirmProjectJs (now : Str) (p : ProjectJs) : ProjectJs :=
  { p with confirmed := true, require_confirmation := false
           blocked := false, updated_at := now }

end Legacy

/-! ## Concrete fixtures used by witnesses and counterexamples -/

/-- A blocked, unconfirmed legacy project (counterexample fixture). -/
def blockedProj : Legacy.ProjectJs :=
  { id := ['1'], name := ['B'], slug := ['b'], kind := ("book").data, parent_id := none
    confirmed := false, require_confirmation := true, blocked := true
    created_at := ['t'], updated_at := ['t'], deleted_at := none, deleted_by := none }

/-- A legacy state holding only `blockedProj`. -/
def blockedState : Legacy.JsState :=
  { projects := [(['1'], blockedProj)], docs := [], trashProjects := [], trashDocs := []
    defaultProjectId := none }

/-- A live project named `"Foo"` (C4 counterexample fixture). -/
def projFoo : Mjs.Project :=
  { id := ['1'], name := ("Foo").data, slug := ("foo").data, kind := ("book").data
    parent_id := none, confirmed := true, require_confirmation := false
    blocked := false, deleted_at := none }

/-- A server state holding only `projFoo`. -/
def stFoo : Mjs.State := { projects := [projFoo], docs := [] }

/-- The project row `POST /projects` creates for the name `"Foo"`
(witness fixture for C4). -/
def projFooCreated : Mjs.Project :=
  { id := ['1'], name := ("Foo").data, slug := makeSlug (("Foo").data)
    kind := ("book").data, parent_id := none, confirmed := false
    require_confirmation := true, blocked := false, deleted_at := none }

/-- A live legacy doc tagged `"a"` and `"b"` (C3 witness fixture). -/
def docAB : Legacy.DocJs :=
  { id := ['1'], project_id := ['p'], doc_type := ['t'], title := ['T'], body_md := []
    tags := [['a'], ['b']], meta := [], created_at := ['t'], updated_at := ['t']
    deleted_at := none, deleted_by := none }

/-- A live legacy project (fixture for C8–C10 witnesses). -/
def projW : Legacy.ProjectJs :=
  { id := ['1'], name := ['P'], slug := ['p'], kind := ("book").data, parent_id := none
    confirmed := true, require_confirmation := false, blocked := false
    created_at := ['t'], updated_at := ['t'], deleted_at := none, deleted_by := none }

/-- A live legacy doc in `projW` (fixture for C8–C10 witnesses). -/
def docW : Legacy.DocJs :=
  { id := ['d'], project_id := ['1'], doc_type := ['t'], title := ['T'], body_md := ['b']
    tags := [], meta := [], created_at := ['t'], updated_at := ['t']
    deleted_at := none, deleted_by := none }

/-- A legacy state holding `projW` and `docW` (fixture). -/
def stW : Legacy.JsState :=
  { projects := [(['1'], projW)], docs := [(['d'], docW)], trashProjects := []
    trashDocs := [], defaultProjectId := none }

/-- An empty legacy state (C7 counterexample fixture). -/
def emptyJsState : Legacy.JsState :=
  { projects := [], docs := [], trashProjects := [], trashDocs := []
    defaultProjectId := none }

/-- An unconfirmed, unblocked legacy project (C7 counterexample fixture). -/
def pendingProj : Legacy.ProjectJs :=
  { id := ['1'], name := ['P'], slug := ['p'], kind := ("book").data, parent_id := none
    confirmed := false, require_confirmation := true, blocked := false
    created_at := ['t'], updated_at := ['t'], deleted_at := none, deleted_by := none }

/-- A legacy state holding only `pendingProj` (C7 counterexample fixture). -/
def pendingState : Legacy.JsState :=
  { projects := [(['1'], pendingProj)], docs := [], trashProjects := [], trashDocs := []
    defaultProjectId := none }

/-! ## General lemmas about the string helpers -/

theorem digitChar_toNat {d : Nat} (h : d < 10) : (digitChar d).toNat = 48 + d := by
  interval_cases d <;> decide

theorem decVal_foldl (a : Nat) (L : List Nat) (hL : ∀ d ∈ L, d < 10) :
    (L.reverse.map digitChar).foldl (fun x c => x * 10 + (c.toNat - 48)) a
      = a * 10 ^ L.length + Nat.ofDigits 10 L := by
  induction L generalizing a with
  | nil => simp
  | cons d L ih =>
    have hd : d < 10 := hL d (by simp)
    have hrec := ih a (fun x hx => hL x (by simp [hx]))
    simp only [List.reverse_cons, List.map_append, List.foldl_append, List.map_cons,
      List.map_nil, List.foldl_cons, List.foldl_nil, hrec, digitChar_toNat hd,
      List.length_cons]
    have hof : Nat.ofDigits 10 (d :: L) = d + 10 * Nat.ofDigits 10 L := by
      exact_mod_cast Nat.ofDigits_cons
    rw [hof]
    ring_nf
    omega

theorem decVal_decRepr (n : Nat) : decVal (decRepr n) = n := by
  by_cases h : n = 0
  · subst h; decide
  · unfold decRepr decVal
    rw [if_neg h]
    have := decVal_foldl 0 (Nat.digits 10 n) (fun d hd => Nat.digits_lt_base (by norm_num) hd)
    simpa [Nat.ofDigits_digits] using this

theorem decRepr_inj {a b : Nat} (h : decRepr a = decRepr b) : a = b := by
  have := congrArg decVal h
  rwa [decVal_decRepr, decVal_decRepr] at this

theorem mem_dedupAux (x : Str) :
    ∀ (l seen : List Str), x ∈ dedupAux seen l ↔ x ∈ l ∧ x ∉ seen := by
  intro l
  induction l with
  | nil => intro seen; simp [dedupAux]
  | cons y ys ih =>
    intro seen
    rw [dedupAux]
    by_cases hy : seen.contains y = true
    · rw [if_pos hy, ih seen]
      have hyseen : y ∈ seen := List.elem_iff.mp hy
      simp only [List.mem_cons]
      constructor
      · rintro ⟨hmem, hns⟩
        exact ⟨Or.inr hmem, hns⟩
      · rintro ⟨hxy | hmem, hns⟩
        · exact absurd (hxy ▸ hyseen) hns
        · exact ⟨hmem, hns⟩
    · rw [if_neg hy]
      have hyseen : y ∉ seen := fun hc => hy (List.elem_iff.mpr hc)
      simp only [List.mem_cons, ih (y :: seen), List.mem_cons]
      constructor
      · rintro (rfl | ⟨hmem, hns⟩)
        · exact ⟨Or.inl rfl, hyseen⟩
        · exact ⟨Or.inr hmem, fun hc => hns (Or.inr hc)⟩
      · rintro ⟨rfl | hmem, hns⟩
        · exact Or.inl rfl
        · by_cases hxy : x = y
          · exact Or.inl hxy
          · refine Or.inr ⟨hmem, ?_⟩
            rintro (h1 | h1)
            · exact hxy h1
            · exact hns h1

theorem mem_dedup (l : List Str) (x : Str) : x ∈ dedup l ↔ x ∈ l := by
  unfold dedup
  rw [mem_dedupAux x l []]
  simp

namespace DbPg

/-! ### Facts about `splitText` -/

theorem splitText_flatten_aux (m : Nat) :
    ∀ (n : Nat) (text : Str), text.length ≤ n → (splitText text (m + 1)).flatten = text := by
  intro n
  induction n with
  | zero =>
    intro text h
    have : text = [] := List.length_eq_zero.mp (Nat.le_zero.mp h)
    subst this
    simp [splitText]
  | succ n ih =>
    intro text h
    match text with
    | [] => simp [splitText]
    | c :: rest =>
      rw [splitText, List.flatten_cons]
      have hlen : (rest.drop m).length ≤ n := by
        simp only [List.length_cons] at h
        simp only [List.length_drop]
        omega
      rw [ih _ hlen]
      simp [List.take_succ_cons, List.take_append_drop]

theorem splitText_flatten (text : Str) : (splitText text 8000).flatten = text :=
  splitText_flatten_aux 7999 text.length text le_rfl

theorem splitText_length_aux (m : Nat) :
    ∀ (n : Nat) (text : Str), text.length ≤ n →
      (splitText text (m + 1)).length = (text.length + m) / (m + 1) := by
  intro n
  induction n with
  | zero =>
    intro text h
    have : text = [] := List.length_eq_zero.mp (Nat.le_zero.mp h)
    subst this
    simp [splitText, Nat.div_eq_of_lt (Nat.lt_succ_self m)]
  | succ n ih =>
    intro text h
    match text with
    | [] => simp [splitText, Nat.div_eq_of_lt (Nat.lt_succ_self m)]
    | c :: rest =>
      rw [splitText]
      have hlen : (rest.drop m).length ≤ n := by
        simp only [List.length_cons] at h
        simp only [List.length_drop]
        omega
      simp only [List.length_cons, List.length_drop, ih _ hlen]
      have key : rest.length + 1 + m = rest.length + (m + 1) := by omega
      rw [key, Nat.add_div_right _ (Nat.succ_pos m)]
      by_cases hm : m ≤ rest.length
      · have h1 : rest.length - m + m = rest.length := by omega
        rw [h1]
      · have h1 : rest.length - m = 0 := by omega
        have h2 : rest.length / (m + 1) = 0 := Nat.div_eq_of_lt (by omega)
        have h3 : m / (m + 1) = 0 := Nat.div_eq_of_lt (by omega)
        rw [h1]
        simp [h2, h3]

theorem splitText_length (text : Str) :
    (splitText text 8000).length = (text.length + 7999) / 8000 :=
  splitText_length_aux 7999 text.length text le_rfl

theorem splitText_getElem?_aux (m : Nat) :
    ∀ (n : Nat) (text : Str), text.length ≤ n →
      ∀ (k : Nat), k < (splitText text (m + 1)).length →
        (splitText text (m + 1))[k]? = some ((text.drop (k * (m + 1))).take (m + 1)) := by
  intro n
  induction n with
  | zero =>
    intro text h k hk
    have : text = [] := List.length_eq_zero.mp (Nat.le_zero.mp h)
    subst this
    simp [splitText] at hk
  | succ n ih =>
    intro text h k hk
    match text with
    | [] => simp [splitText] at hk
    | c :: rest =>
      have hlen : (rest.drop m).length ≤ n := by
        simp only [List.length_cons] at h
        simp only [List.length_drop]
        omega
      rw [splitText] at hk ⊢
      match k with
      | 0 => simp
      | k + 1 =>
        simp only [List.getElem?_cons_succ]
        have hk2 : k < (splitText (rest.drop m) (m + 1)).length := by
          simpa using hk
        rw [ih (rest.drop m) hlen k hk2, List.drop_drop]
        have e1 : (k + 1) * (m + 1) = (k * (m + 1) + m) + 1 := by ring
        rw [e1, List.drop_succ_cons]
        have e2 : m + k * (m + 1) = k * (m + 1) + m := by ring
        rw [e2]

theorem splitText_get (text : Str) (k : Nat) (hk : k < (splitText text 8000).length) :
    (splitText text 8000).get ⟨k, hk⟩ = (text.drop (k * 8000)).take 8000 := by
  have h1 := splitText_getElem?_aux 7999 text.length text le_rfl k hk
  have h2 : (splitText text 8000)[k]? = some ((splitText text 8000).get ⟨k, hk⟩) := by
    simp [List.getElem?_eq_getElem hk]
  rw [h1] at h2
  exact (Option.some_inj.mp h2).symm

/-! ### Facts about `baseId` and `mergeParts` -/

theorem startsWith_append_self (sep t : Str) : startsWith sep (sep ++ t) = true := by
  induction sep with
  | nil => rfl
  | cons a as ih => simp [startsWith, ih]

theorem startsWith_dashP_boundary (c : Char) (cs t : Str)
    (h : startsWith dashP (c :: cs) = false) :
    startsWith dashP (c :: (cs ++ (dashP ++ t))) = false := by
  match cs with
  | [] =>
    have hp : ('p' == '-') = false := by decide
    simp [dashP, startsWith, hp]
  | d :: ds =>
    simp only [dashP, startsWith, List.cons_append] at h ⊢
    simpa using h

theorem splitFirst_dashP_append (id t : Str) (h : containsSub dashP id = false) :
    splitFirst dashP (id ++ (dashP ++ t)) = id := by
  induction id with
  | nil =>
    show splitFirst dashP ('-' :: 'p' :: t) = []
    rw [splitFirst, if_pos]
    exact startsWith_append_self dashP t
  | cons c cs ih =>
    rw [containsSub, Bool.or_eq_false_iff] at h
    show splitFirst dashP (c :: (cs ++ (dashP ++ t))) = c :: cs
    rw [splitFirst]
    have hb : startsWith dashP (c :: (cs ++ (dashP ++ t))) = false :=
      startsWith_dashP_boundary c cs t h.1
    rw [if_neg (by simp [hb])]
    rw [ih h.2]

theorem mergeStep_uniform_fold (b : Str) (rows : List Row)
    (hb : ∀ x ∈ rows, baseId x.id = b) :
    ∀ r : Row, rows.foldl mergeStep [(b, r)]
      = [(b, { r with body := r.body ++ (rows.map (fun x => x.body)).flatten })] := by
  induction rows with
  | nil => intro r; simp
  | cons x rest ih =>
    intro r
    have hx : baseId x.id = b := hb x (by simp)
    have hrest : ∀ y ∈ rest, baseId y.id = b := fun y hy => hb y (by simp [hy])
    rw [List.foldl_cons]
    have hstep : mergeStep [(b, r)] x = [(b, { r with body := r.body ++ x.body })] := by
      simp [mergeStep, hx]
    rw [hstep, ih hrest]
    simp [List.append_assoc]

theorem mergeParts_uniform (b : Str) (rows : List Row) (hne : rows ≠ [])
    (hb : ∀ x ∈ rows, baseId x.id = b) :
    (mergeParts rows).map (fun r => (r.id, r.body))
      = [(b, (rows.map (fun x => x.body)).flatten)] := by
  match rows with
  | [] => exact absurd rfl hne
  | r0 :: rest =>
    have hb0 : baseId r0.id = b := hb r0 (by simp)
    have hrest : ∀ y ∈ rest, baseId y.id = b := fun y hy => hb y (by simp [hy])
    unfold mergeParts
    rw [List.foldl_cons]
    have hfirst : mergeStep [] r0 = [(b, { r0 with id := b })] := by
      simp [mergeStep, hb0]
    rw [hfirst, mergeStep_uniform_fold b rest hrest]
    simp

/-! ### Facts about `partRows` and the upsert fold -/

theorem partRows_length (id dt title : Str) (tags : List Str) (meta : List (Str × Str))
    (parts : List Str) : (partRows id dt title tags meta parts).length = parts.length := by
  simp [partRows]

theorem partRows_getElem (id dt title : Str) (tags : List Str) (meta : List (Str × Str))
    (parts : List Str) (k : Nat) (hk : k < (partRows id dt title tags meta parts).length) :
    (partRows id dt title tags meta parts).get ⟨k, hk⟩
      = { id := id ++ dashP ++ decRepr (k + 1)
          doc_type := dt
          title := title ++ partMid ++ decRepr (k + 1) ++ (')' :: [])
          body := parts.getD k []
          tags := tags
          meta := meta } := by
  have hk' : k < parts.length := by simpa [partRows] using hk
  simp [partRows, List.getElem_range]

theorem partRows_map_body (id dt title : Str) (tags : List Str) (meta : List (Str × Str))
    (parts : List Str) :
    (partRows id dt title tags meta parts).map (fun r => r.body) = parts := by
  unfold partRows
  rw [List.map_map]
  apply List.ext_getElem
  · simp
  · intro i hi hi'
    simp only [List.getElem_map, List.getElem_range, Function.comp]
    exact List.getD_eq_getElem parts [] hi'

theorem partRows_baseId (id dt title : Str) (tags : List Str) (meta : List (Str × Str))
    (parts : List Str) (hsep : containsSub dashP id = false) :
    ∀ x ∈ partRows id dt title tags meta parts, baseId x.id = id := by
  intro x hx
  unfold partRows at hx
  rw [List.mem_map] at hx
  obtain ⟨idx, _, rfl⟩ := hx
  unfold baseId
  show splitFirst dashP (id ++ dashP ++ decRepr (idx + 1)) = id
  rw [List.append_assoc]
  exact splitFirst_dashP_append id (decRepr (idx + 1)) hsep

theorem partRows_id_nodup (id dt title : Str) (tags : List Str) (meta : List (Str × Str))
    (parts : List Str) :
    ((partRows id dt title tags meta parts).map (fun r => r.id)).Nodup := by
  unfold partRows
  rw [List.map_map]
  apply List.Nodup.map _ (List.nodup_range parts.length)
  intro a b hab
  have hab' : id ++ (dashP ++ decRepr (a + 1)) = id ++ (dashP ++ decRepr (b + 1)) := by
    have h0 : id ++ dashP ++ decRepr (a + 1) = id ++ dashP ++ decRepr (b + 1) := hab
    simpa [List.append_assoc] using h0
  have h1 := List.append_cancel_left hab'
  have h2 := List.append_cancel_left h1
  have := decRepr_inj h2
  omega

theorem foldl_upsert_fresh :
    ∀ (rows db : List Row),
      (∀ r ∈ rows, ∀ x ∈ db, x.id ≠ r.id) →
      ((rows.map (fun r => r.id)).Nodup) →
      rows.foldl upsertRow db = db ++ rows := by
  intro rows
  induction rows with
  | nil => intro db _ _; simp
  | cons r rest ih =>
    intro db hfresh hnd
    rw [List.foldl_cons]
    have hany : db.any (fun x => x.id = r.id) = false := by
      rw [List.any_eq_false]
      intro x hx
      simpa using hfresh r (by simp) x hx
    have hup : upsertRow db r = db ++ [r] := by
      simp [upsertRow, hany]
    rw [hup]
    simp only [List.map_cons, List.nodup_cons] at hnd
    have hfresh' : ∀ r' ∈ rest, ∀ x ∈ db ++ [r], x.id ≠ r'.id := by
      intro r' hr' x hx
      rw [List.mem_append] at hx
      cases hx with
      | inl h => exact hfresh r' (by simp [hr']) x h
      | inr h =>
        simp only [List.mem_singleton] at h
        subst h
        intro hcontra
        exact hnd.1 (by rw [hcontra]; exact List.mem_map_of_mem (fun r => r.id) hr')
    rw [ih (db ++ [r]) hfresh' hnd.2]
    simp

theorem createDoc_oversized (freshId docId dt title : Str) (tags : List Str)
    (meta : List (Str × Str)) (body : Str) (hid : docId ≠ []) (hlen : 8000 < body.length) :
    createDoc freshId
        { id := some docId, doc_type := dt, title := title
          body_md := some body, tags := some tags, meta := some meta } {} []
      = (partRows docId dt title tags meta (splitText body 8000),
         .oversized docId (partRows docId dt title tags meta (splitText body 8000)).length
           (partRows docId dt title tags meta (splitText body 8000))) := by
  have h1 : orElseStr (some docId) freshId = docId := by
    cases docId with
    | nil => exact absurd rfl hid
    | cons a as => rfl
  unfold createDoc
  dsimp only
  simp only [h1, Option.getD_some]
  rw [if_pos hlen]
  rw [foldl_upsert_fresh _ []
    (by intro r _ x hx; exact absurd hx (List.not_mem_nil x))
    (partRows_id_nodup _ _ _ _ _ _)]
  simp

theorem createDoc_small (freshId docId dt title : Str) (tags : List Str)
    (meta : List (Str × Str)) (body : Str) (hid : docId ≠ []) (hlen : body.length ≤ 8000) :
    createDoc freshId
        { id := some docId, doc_type := dt, title := title
          body_md := some body, tags := some tags, meta := some meta } {} []
      = ([{ id := docId, doc_type := dt, title := title, body := body,
            tags := tags, meta := meta }],
         .single { id := docId, doc_type := dt, title := title, body := body,
                   tags := tags, meta := meta }) := by
  have h1 : orElseStr (some docId) freshId = docId := by
    cases docId with
    | nil => exact absurd rfl hid
    | cons a as => rfl
  unfold createDoc
  dsimp only
  simp only [h1, Option.getD_some]
  rw [if_neg (by omega)]
  simp [upsertRow]

theorem readDocs_nofilter (db : List Row) : readDocs {} db = mergeParts db := by
  unfold readDocs
  simp

end DbPg

/-- C1: splitting an oversized document body into parts and reassembling
them at read time is lossless.  For every body string, concatenating
`splitText body`'s parts in index order equals `body`; and a document
whose body was stored by the oversized branch of `createDoc` into an
empty table (i.e. under sequential, non-concurrent writes) is returned
by `readDocs` (via `mergeParts`) with its full original body under its
original id.  The hypotheses of the second part say the caller-chosen id
is non-empty (a JS-truthy `payload.id`) and does not itself contain the
`"-p"` part separator — as is the case for the hex uuids the code
generates. -/
theorem C1_split_merge_lossless :
    (∀ body : Str, (DbPg.splitText body 8000).flatten = body) ∧
    (∀ (docId dt title : Str) (tags : List Str) (meta : List (Str × Str))
        (body freshId : Str),
      docId ≠ [] → containsSub DbPg.dashP docId = false → 8000 < body.length →
      (DbPg.readDocs {} ((DbPg.createDoc freshId
          { id := some docId, doc_type := dt, title := title
            body_md := some body, tags := some tags, meta := some meta } {} []).1)).map
        (fun r => (r.id, r.body)) = [(docId, body)]) := by
  refine ⟨DbPg.splitText_flatten, ?_⟩
  intro docId dt title tags meta body freshId hid hsep hlen
  rw [DbPg.createDoc_oversized freshId docId dt title tags meta body hid hlen]
  rw [DbPg.readDocs_nofilter]
  have hne : DbPg.partRows docId dt title tags meta (DbPg.splitText body 8000) ≠ [] := by
    have hlenp : (DbPg.splitText body 8000).length = (body.length + 7999) / 8000 :=
      DbPg.splitText_length body
    have hpos : 0 < (DbPg.splitText body 8000).length := by
      rw [hlenp]
      have : 8000 ≤ body.length + 7999 := by omega
      exact Nat.one_le_div_iff (by norm_num) |>.mpr this
    have := DbPg.partRows_length docId dt title tags meta (DbPg.splitText body 8000)
    intro hcontra
    rw [hcontra] at this
    simp at this
    omega
  rw [DbPg.mergeParts_uniform docId _ hne
    (DbPg.partRows_baseId docId dt title tags meta (DbPg.splitText body 8000) hsep)]
  rw [DbPg.partRows_map_body, DbPg.splitText_flatten]

/-- Witness for C1 at a concrete input: a 8001-character body split into
two parts and reassembled. -/
theorem C1_split_merge_lossless_witness :
    8000 < (List.replicate 8001 'x').length ∧
    (DbPg.readDocs {} ((DbPg.createDoc ['f']
        { id := some ['d'], doc_type := ['t'], title := ['T']
          body_md := some (List.replicate 8001 'x'), tags := some [], meta := some [] } {} []).1)).map
      (fun r => (r.id, r.body)) = [(['d'], List.replicate 8001 'x')] :=
  ⟨by rw [List.length_replicate]; norm_num,
   C1_split_merge_lossless.2 ['d'] ['t'] ['T'] [] [] (List.replicate 8001 'x') ['f']
     (by decide) (by decide) (by rw [List.length_replicate]; norm_num)⟩

/-- C6: `createDoc` stores a body of length at most 8000 as a single row
with the given id and title, and stores a longer body as
`ceil(length/8000)` rows, the `k`-th (0-based here; the claim counts from
1) holding the `k`-th fixed-size 8000-character slice under derived id
`<id>-p<k+1>` and derived title `<title> (Part <k+1>)`, returning the
part count. -/
theorem C6_createDoc_chunks (docId dt title : Str) (tags : List Str)
    (meta : List (Str × Str)) (body freshId : Str) (hid : docId ≠ []) :
    (body.length ≤ 8000 →
      DbPg.createDoc freshId
          { id := some docId, doc_type := dt, title := title
            body_md := some body, tags := some tags, meta := some meta } {} []
        = ([{ id := docId, doc_type := dt, title := title, body := body,
              tags := tags, meta := meta }],
           .single { id := docId, doc_type := dt, title := title, body := body,
                     tags := tags, meta := meta })) ∧
    (8000 < body.length →
      ∃ rows : List DbPg.Row,
        DbPg.createDoc freshId
            { id := some docId, doc_type := dt, title := title
              body_md := some body, tags := some tags, meta := some meta } {} []
          = (rows, .oversized docId rows.length rows) ∧
        rows.length = (body.length + 7999) / 8000 ∧
        ∀ (k : Nat) (hk : k < rows.length),
          rows.get ⟨k, hk⟩
            = { id := docId ++ DbPg.dashP ++ decRepr (k + 1)
                doc_type := dt
                title := title ++ DbPg.partMid ++ decRepr (k + 1) ++ (')' :: [])
                body := (body.drop (k * 8000)).take 8000
                tags := tags, meta := meta }) := by
  constructor
  · intro hlen
    exact DbPg.createDoc_small freshId docId dt title tags meta body hid hlen
  · intro hlen
    refine ⟨DbPg.partRows docId dt title tags meta (DbPg.splitText body 8000), ?_, ?_, ?_⟩
    · exact DbPg.createDoc_oversized freshId docId dt title tags meta body hid hlen
    · rw [DbPg.partRows_length, DbPg.splitText_length]
    · intro k hk
      rw [DbPg.partRows_getElem]
      have hk' : k < (DbPg.splitText body 8000).length := by
        have := DbPg.partRows_length docId dt title tags meta (DbPg.splitText body 8000)
        omega
      have hgd : (DbPg.splitText body 8000).getD k [] = (body.drop (k * 8000)).take 8000 := by
        rw [List.getD_eq_getElem _ [] hk']
        have := DbPg.splitText_get body k hk'
        simpa using this
      rw [hgd]

/-- Witness for C6 at a concrete input. -/
theorem C6_createDoc_chunks_witness :
    (['d'] : Str) ≠ [] ∧
    ((['a', 'b'] : Str).length ≤ 8000 →
      DbPg.createDoc ['f']
          { id := some ['d'], doc_type := ['t'], title := ['T']
            body_md := some ['a', 'b'], tags := some [], meta := some [] } {} []
        = ([{ id := ['d'], doc_type := ['t'], title := ['T'], body := ['a', 'b'],
              tags := [], meta := [] }],
           .single { id := ['d'], doc_type := ['t'], title := ['T'], body := ['a', 'b'],
                     tags := [], meta := [] })) :=
  ⟨by decide, (C6_createDoc_chunks ['d'] ['t'] ['T'] [] [] ['a', 'b'] ['f'] (by decide)).1⟩

/-! ## Claims about the server routes -/

/-- C2 (amended): for every project with `require_confirmation = true`,
`confirmed = false` and — in the legacy server, whose middleware answers
403 for blocked projects — `blocked = false`, every document-write
endpoint (`POST /doc`, `/lyra/ingest`, `/lyra/paste-save`) responds 412
with a JSON error body and changes no state when the `ALLOW_AUTOCONFIRM`
toggle is unset, and proceeds past the gate when it is set. -/
theorem C2_unconfirmed_write_gate :
    (∀ (st : Mjs.State) (proj : Mjs.Project) (freshId : Str) (req : Mjs.DocReq),
      optTruthy req.project_name = true → optTruthy req.doc_type = true →
      optTruthy req.title = true →
      Mjs.findLiveProjectByName st.projects (optVal req.project_name) = some proj →
      proj.require_confirmation = true → proj.confirmed = false →
      Mjs.postDoc false freshId req st
          = (Mjs.resErr 412 (("project not confirmed").data), st) ∧
        (Mjs.postDoc true freshId req st).1 = Mjs.resOk) ∧
    (∀ (st : Mjs.State) (proj : Mjs.Project) (freshIds : Nat → Str) (pname : Option Str)
        (items : List Mjs.IngestItem),
      optTruthy pname = true → items ≠ [] →
      Mjs.findLiveProjectByName st.projects (optVal pname) = some proj →
      proj.require_confirmation = true → proj.confirmed = false →
      Mjs.lyraIngest false freshIds pname items st
          = (Mjs.resErr 412 (("project not confirmed").data), st, []) ∧
        (Mjs.lyraIngest true freshIds pname items st).1 = Mjs.resOk) ∧
    (∀ (st : Mjs.State) (proj : Mjs.Project) (freshId : Str) (req : Mjs.PasteReq),
      optTruthy req.project_name = true → optTruthy req.doc_type = true →
      optTruthy req.title = true →
      Mjs.findLiveProjectByName st.projects (optVal req.project_name) = some proj →
      proj.require_confirmation = true → proj.confirmed = false →
      Mjs.pasteSave false freshId req st
          = (Mjs.resErr 412 (("project not confirmed").data), st) ∧
        (Mjs.pasteSave true freshId req st).1.status ≠ 412) ∧
    (∀ (now : Str) (p : Legacy.ProjectJs),
      p.require_confirmation = true → p.confirmed = false → p.blocked = false →
      Legacy.requireConfirmedProject false now p = Legacy.Gate.notConfirmed412 ∧
        Legacy.requireConfirmedProject true now p
          = Legacy.Gate.proceed { p with confirmed := true, require_confirmation := false
                                         blocked := false, updated_at := now }) := by
  refine ⟨?_, ?_, ?_, ?_⟩
  · intro st proj freshId req hpn hdt hti hfind hrc hcf
    constructor
    · simp [Mjs.postDoc, hpn, hdt, hti, hfind, hrc, hcf]
    · simp [Mjs.postDoc, hpn, hdt, hti, hfind, hrc, hcf, Mjs.resOk]
  · intro st proj freshIds pname items hpn hne hfind hrc hcf
    have hitems : items.isEmpty = false := by
      cases items with
      | nil => exact absurd rfl hne
      | cons a l => rfl
    constructor
    · simp [Mjs.lyraIngest, hpn, hitems, hfind, hrc, hcf]
    · simp [Mjs.lyraIngest, hpn, hitems, hfind, hrc, hcf, Mjs.resOk]
  · intro st proj freshId req hpn hdt hti hfind hrc hcf
    constructor
    · simp [Mjs.pasteSave, hpn, hdt, hti, hfind, hrc, hcf]
    · unfold Mjs.pasteSave
      rw [if_neg (by simp [hpn, hdt, hti])]
      simp only [hfind]
      rw [if_neg (by simp)]
      split
      · split
        · simp [Mjs.resErr]
        · split
          · simp [Mjs.resErr]
          · simp [Mjs.resOk]
      · simp [Mjs.resOk]
  · intro now p hrc hcf hbl
    constructor
    · simp [Legacy.requireConfirmedProject, hrc, hcf, hbl]
    · simp [Legacy.requireConfirmedProject, hrc, hcf, hbl]

/-- Counterexample to C2 as stated: in the legacy server a project with
`require_confirmation = true` and `confirmed = false` that is also
`blocked` makes `POST /doc` answer 403, not 412 — even with the
`ALLOW_AUTOCONFIRM` toggle set the write does not proceed. -/
theorem C2_counterexample :
    blockedProj.require_confirmation = true ∧ blockedProj.confirmed = false ∧
    (Legacy.postDocJs false ['9'] ['t'] (some ['1']) none none (some ['s'])
        (some ['T']) [] [] [] blockedState).1.status = 403 ∧
    (Legacy.postDocJs true ['9'] ['t'] (some ['1']) none none (some ['s'])
        (some ['T']) [] [] [] blockedState).1.status = 403 := by
  decide

/-- Witness for C2 at a concrete input: an unconfirmed, unblocked
project. -/
theorem C2_unconfirmed_write_gate_witness :
    optTruthy (some (("P").data)) = true ∧
    (Mjs.postDoc false ['9']
        { project_name := some (("P").data), doc_type := some ['t'], title := some ['T'] }
        { projects := [{ id := ['1'], name := ("P").data, slug := ['p'], kind := ("book").data
                         parent_id := none, confirmed := false, require_confirmation := true
                         blocked := false, deleted_at := none }], docs := [] }
        = (Mjs.resErr 412 (("project not confirmed").data),
           { projects := [{ id := ['1'], name := ("P").data, slug := ['p'], kind := ("book").data
                            parent_id := none, confirmed := false, require_confirmation := true
                            blocked := false, deleted_at := none }], docs := [] }) ∧
      (Mjs.postDoc true ['9']
        { project_name := some (("P").data), doc_type := some ['t'], title := some ['T'] }
        { projects := [{ id := ['1'], name := ("P").data, slug := ['p'], kind := ("book").data
                         parent_id := none, confirmed := false, require_confirmation := true
                         blocked := false, deleted_at := none }], docs := [] }).1 = Mjs.resOk) :=
  ⟨by decide,
   C2_unconfirmed_write_gate.1
     { projects := [{ id := ['1'], name := ("P").data, slug := ['p'], kind := ("book").data
                      parent_id := none, confirmed := false, require_confirmation := true
                      blocked := false, deleted_at := none }], docs := [] }
     { id := ['1'], name := ("P").data, slug := ['p'], kind := ("book").data
       parent_id := none, confirmed := false, require_confirmation := true
       blocked := false, deleted_at := none }
     ['9']
     { project_name := some (("P").data), doc_type := some ['t'], title := some ['T'] }
     (by decide) (by decide) (by decide) (by decide) (by decide) (by decide)⟩

/-- Counterexample to C4 as stated: no non-deleted project is named
`"foo"`, yet `POST /projects` with the fresh name `"foo"` answers 409 and
creates nothing, because the duplicate check compares lowercased names. -/
theorem C4_counterexample :
    (∀ p ∈ stFoo.projects, ¬(p.name = ("foo").data ∧ p.deleted_at = none)) ∧
    (Mjs.postProjects ['2'] (some (("foo").data)) (("book").data) none stFoo).1.status = 409 ∧
    (Mjs.postProjects ['2'] (some (("foo").data)) (("book").data) none stFoo).2 = stFoo := by
  decide

/-- C4 (amended): the duplicate check of `POST /projects` is
case-insensitive on non-deleted projects: when a live project whose
lowercased name equals the lowercased requested name exists the route
answers 409 and leaves the projects unchanged; when no such project
exists it inserts a project with `confirmed = false` and
`require_confirmation = true`. -/
theorem C4_create_project (freshId : Str) (name : Option Str) (kind : Str)
    (parent_id : Option Str) (st : Mjs.State) (hname : optTruthy name = true) :
    ((∃ p ∈ st.projects, lowerStr p.name = lowerStr (optVal name) ∧ p.deleted_at = none) →
      (Mjs.postProjects freshId name kind parent_id st).1.status = 409 ∧
      (Mjs.postProjects freshId name kind parent_id st).2 = st) ∧
    ((∀ p ∈ st.projects, ¬(lowerStr p.name = lowerStr (optVal name) ∧ p.deleted_at = none)) →
      Mjs.postProjects freshId name kind parent_id st
        = (Mjs.resOk, { st with projects := st.projects ++
            [{ id := freshId, name := optVal name, slug := makeSlug (optVal name)
               kind := kind, parent_id := parent_id, confirmed := false
               require_confirmation := true, blocked := false, deleted_at := none }] })) := by
  constructor
  · intro hex
    have hsome : (Mjs.findLiveProjectByName st.projects (optVal name)).isSome := by
      rw [Mjs.findLiveProjectByName, List.find?_isSome]
      obtain ⟨p, hp, hcond⟩ := hex
      exact ⟨p, hp, by simpa using hcond⟩
    obtain ⟨q, hq⟩ := Option.isSome_iff_exists.mp hsome
    constructor
    · simp [Mjs.postProjects, hname, hq, Mjs.resErr]
    · simp [Mjs.postProjects, hname, hq]
  · intro hfresh
    have hnone : Mjs.findLiveProjectByName st.projects (optVal name) = none := by
      rw [Mjs.findLiveProjectByName, List.find?_eq_none]
      intro p hp
      simpa using hfresh p hp
    simp [Mjs.postProjects, hname, hnone]

/-- Witness for C4 at a concrete input: creating `"Foo"` in an empty
state. -/
theorem C4_create_project_witness :
    optTruthy (some (("Foo").data)) = true ∧
    Mjs.postProjects ['1'] (some (("Foo").data)) (("book").data) none
        { projects := [], docs := [] }
      = (Mjs.resOk, { projects := [projFooCreated], docs := [] }) :=
  ⟨by decide,
   (C4_create_project ['1'] (some (("Foo").data)) (("book").data) none
      { projects := [], docs := [] } (by decide)).2 (by decide)⟩

/-- C5: confirming a project is idempotent.  In `server.mjs` the confirm
update sets `confirmed = true` and `require_confirmation = false` for the
matching row, and running it twice equals running it once; in the legacy
server `confirm` also clears `blocked` and touches `updated_at`, and
confirm-after-confirm equals confirm. -/
theorem C5_confirm_idempotent :
    (∀ (st : List Mjs.Project) (pid : Str) (p : Mjs.Project), p ∈ st → p.id = pid →
      ({ p with confirmed := true, require_confirmation := false } : Mjs.Project)
        ∈ Mjs.confirmUpdate st pid) ∧
    (∀ p : Mjs.Project,
      ({ p with confirmed := true, require_confirmation := false } : Mjs.Project).confirmed
          = true ∧
      ({ p with confirmed := true, require_confirmation := false }
          : Mjs.Project).require_confirmation = false) ∧
    (∀ (st : List Mjs.Project) (pid : Str),
      Mjs.confirmUpdate (Mjs.confirmUpdate st pid) pid = Mjs.confirmUpdate st pid) ∧
    (∀ (now1 now2 : Str) (p : Legacy.ProjectJs),
      (Legacy.confirmProjectJs now1 p).confirmed = true ∧
      (Legacy.confirmProjectJs now1 p).require_confirmation = false ∧
      Legacy.confirmProjectJs now2 (Legacy.confirmProjectJs now1 p)
        = Legacy.confirmProjectJs now2 p) := by
  refine ⟨?_, ?_, ?_, ?_⟩
  · intro st pid p hp hid
    rw [Mjs.confirmUpdate]
    refine List.mem_map.mpr ⟨p, hp, ?_⟩
    dsimp only
    rw [if_pos hid]
  · intro p
    exact ⟨rfl, rfl⟩
  · intro st pid
    unfold Mjs.confirmUpdate
    rw [List.map_map]
    apply List.map_congr_left
    intro p _
    by_cases h : p.id = pid
    · simp only [Function.comp, if_pos h]
    · simp only [Function.comp, if_neg h, if_neg h]
  · intro now1 now2 p
    exact ⟨rfl, rfl, rfl⟩

/-- Witness for C5 at a concrete input. -/
theorem C5_confirm_idempotent_witness :
    projFoo ∈ stFoo.projects ∧ projFoo.id = ['1'] ∧
    ({ projFoo with confirmed := true, require_confirmation := false } : Mjs.Project)
      ∈ Mjs.confirmUpdate stFoo.projects ['1'] :=
  ⟨by decide, by decide,
   C5_confirm_idempotent.1 stFoo.projects ['1'] projFoo (by decide) (by decide)⟩

/-- Counterexample to C7 as stated: on the legacy `POST /doc` (also
cited by the claim) a request naming a project that does not exist draws
400 `project resolution failed` from the `resolveProjectId` middleware,
not the claimed 404; and a request missing its `title` but naming an
unconfirmed project draws 412 from the confirmation gate, which runs
before field validation, not the claimed 400. -/
theorem C7_counterexample :
    emptyJsState.projects = [] ∧
    (Legacy.postDocJs false ['9'] ['n'] none (some ['P']) none (some ['t']) (some ['T'])
        [] [] [] emptyJsState).1.status = 400 ∧
    (Legacy.postDocJs false ['9'] ['n'] none (some ['P']) none (some ['t']) (some ['T'])
        [] [] [] emptyJsState).1.status ≠ 404 ∧
    optTruthy (none : Option Str) = false ∧
    (Legacy.postDocJs false ['9'] ['n'] (some ['1']) none none (some ['t']) none
        [] [] [] pendingState).1.status = 412 ∧
    (Legacy.postDocJs false ['9'] ['n'] (some ['1']) none none (some ['t']) none
        [] [] [] pendingState).1.status ≠ 400 := by
  decide

/-- C7 (amended): on `server.mjs`, `POST /doc` surfaces validation and
lookup failures as the stated codes with a JSON error body and creates
nothing — 400 when `project_name`, `doc_type` or `title` is missing (or
JS-falsy), 404 when no non-deleted project matches the requested name.
On the legacy in-memory server the same endpoint behaves differently: a
request whose project cannot be resolved gets 400
`project resolution failed` (not 404) from the middleware; missing
`doc_type`/`title` on a resolvable project that passes the confirmation
gate gets 400 with no document created; and an unconfirmed project gets
412 before field validation, even when `doc_type`/`title` are missing. -/
theorem C7_post_doc_errors :
    (∀ (allow : Bool) (freshId : Str) (req : Mjs.DocReq) (st : Mjs.State),
      ((optTruthy req.project_name = false ∨ optTruthy req.doc_type = false ∨
          optTruthy req.title = false) →
        Mjs.postDoc allow freshId req st
          = (Mjs.resErr 400 (("project_name, doc_type, title required").data), st)) ∧
      (optTruthy req.project_name = true → optTruthy req.doc_type = true →
        optTruthy req.title = true →
        (∀ p ∈ st.projects,
          ¬(lowerStr p.name = lowerStr (optVal req.project_name) ∧ p.deleted_at = none)) →
        Mjs.postDoc allow freshId req st
          = (Mjs.resErr 404 (("project not found").data), st))) ∧
    (∀ (allow : Bool) (freshId now : Str) (pid pname hpid dt ti : Option Str)
        (body : Str) (tags : List Str) (meta : List (Str × Str)) (st : Legacy.JsState),
      Legacy.resolveProject st pid pname hpid = none →
      Legacy.postDocJs allow freshId now pid pname hpid dt ti body tags meta st
        = (Legacy.resErr 400 (("project resolution failed").data), st)) ∧
    (∀ (allow : Bool) (freshId now : Str) (pid pname hpid dt ti : Option Str)
        (body : Str) (tags : List Str) (meta : List (Str × Str)) (st : Legacy.JsState)
        (proj : Legacy.ProjectJs),
      Legacy.resolveProject st pid pname hpid = some proj →
      proj.blocked = false → proj.confirmed = true →
      (optTruthy dt = false ∨ optTruthy ti = false) →
      (Legacy.postDocJs allow freshId now pid pname hpid dt ti body tags meta st).1
          = Legacy.resErr 400 (("doc_type and title required").data) ∧
        (Legacy.postDocJs allow freshId now pid pname hpid dt ti body tags meta st).2.docs
          = st.docs) ∧
    (∀ (freshId now : Str) (pid pname hpid dt ti : Option Str)
        (body : Str) (tags : List Str) (meta : List (Str × Str)) (st : Legacy.JsState)
        (proj : Legacy.ProjectJs),
      Legacy.resolveProject st pid pname hpid = some proj →
      proj.blocked = false → proj.require_confirmation = true → proj.confirmed = false →
      Legacy.postDocJs false freshId now pid pname hpid dt ti body tags meta st
        = (Legacy.resErr 412 (("project not confirmed").data), st)) := by
  refine ⟨?_, ?_, ?_, ?_⟩
  · intro allow freshId req st
    constructor
    · intro hmiss
      unfold Mjs.postDoc
      rw [if_pos]
      rcases hmiss with h | h | h <;> simp [h]
    · intro hpn hdt hti hfresh
      have hnone : Mjs.findLiveProjectByName st.projects (optVal req.project_name) = none := by
        rw [Mjs.findLiveProjectByName, List.find?_eq_none]
        intro p hp
        simpa using hfresh p hp
      simp [Mjs.postDoc, hpn, hdt, hti, hnone]
  · intro allow freshId now pid pname hpid dt ti body tags meta st hres
    unfold Legacy.postDocJs
    simp only [hres]
  · intro allow freshId now pid pname hpid dt ti body tags meta st proj hres hbl hcf hmiss
    have hgate : Legacy.requireConfirmedProject allow now proj = Legacy.Gate.proceed proj := by
      unfold Legacy.requireConfirmedProject
      rw [if_neg (by simp [hbl])]
      rw [if_neg (by simp [hcf])]
    have hrun : Legacy.postDocJs allow freshId now pid pname hpid dt ti body tags meta st
        = (Legacy.resErr 400 (("doc_type and title required").data),
           { st with projects := Legacy.mapSet st.projects proj.id proj }) := by
      unfold Legacy.postDocJs
      simp only [hres, hgate]
      rw [if_pos (by rcases hmiss with h | h <;> simp [h])]
    rw [hrun]
    exact ⟨rfl, rfl⟩
  · intro freshId now pid pname hpid dt ti body tags meta st proj hres hbl hrc hcf
    have hgate : Legacy.requireConfirmedProject false now proj
        = Legacy.Gate.notConfirmed412 := by
      unfold Legacy.requireConfirmedProject
      rw [if_neg (by simp [hbl])]
      rw [if_pos (by simp [hrc, hcf])]
      rw [if_neg (by simp)]
    unfold Legacy.postDocJs
    simp only [hres, hgate]

/-- Witness for C7 at concrete inputs: a request missing its title on
server.mjs, and a legacy request naming an unresolvable project. -/
theorem C7_post_doc_errors_witness :
    optTruthy (none : Option Str) = false ∧
    Mjs.postDoc false ['9']
        { project_name := some ['P'], doc_type := some ['t'], title := none }
        { projects := [], docs := [] }
      = (Mjs.resErr 400 (("project_name, doc_type, title required").data),
         { projects := [], docs := [] }) ∧
    Legacy.postDocJs false ['9'] ['n'] none (some ['P']) none (some ['t']) (some ['T'])
        [] [] [] emptyJsState
      = (Legacy.resErr 400 (("project resolution failed").data), emptyJsState) :=
  ⟨rfl,
   (C7_post_doc_errors.1 false ['9']
      { project_name := some ['P'], doc_type := some ['t'], title := none }
      { projects := [], docs := [] }).1 (Or.inr (Or.inr rfl)),
   C7_post_doc_errors.2.1 false ['9'] ['n'] none (some ['P']) none (some ['t']) (some ['T'])
      [] [] [] emptyJsState (by decide)⟩

/-! ### Tag-filter characterizations (C3) -/

theorem legacy_tagFilter_all_iff (items : List Legacy.DocJs) (q : Legacy.TagQuery)
    (d : Legacy.DocJs)
    (hmode : lowerStr (orElseStr q.tagsMode (("all").data)) ≠ ("any").data) :
    d ∈ Legacy.applyTagFilter items q ↔
      d ∈ items ∧ ∀ t ∈ Legacy.collectWanted q, t ∈ d.tags := by
  unfold Legacy.applyTagFilter
  simp only [if_neg hmode]
  by_cases hw : (Legacy.collectWanted q).isEmpty = true
  · have hwl : Legacy.collectWanted q = [] := List.isEmpty_iff.mp hw
    simp [hw, hwl]
  · have hwf : (Legacy.collectWanted q).isEmpty = false := by simpa using hw
    simp [hwf, List.mem_filter, List.all_eq_true, List.elem_iff]

theorem legacy_tagFilter_any_iff (items : List Legacy.DocJs) (q : Legacy.TagQuery)
    (d : Legacy.DocJs)
    (hmode : lowerStr (orElseStr q.tagsMode (("all").data)) = ("any").data)
    (hne : Legacy.collectWanted q ≠ []) :
    d ∈ Legacy.applyTagFilter items q ↔
      d ∈ items ∧ ∃ t ∈ Legacy.collectWanted q, t ∈ d.tags := by
  unfold Legacy.applyTagFilter
  simp only [if_pos hmode]
  have hwf : (Legacy.collectWanted q).isEmpty = false := by
    cases h : Legacy.collectWanted q with
    | nil => exact absurd h hne
    | cons a l => rfl
  simp [hwf, List.mem_filter, List.any_eq_true, List.elem_iff]

theorem legacy_tagFilter_empty (items : List Legacy.DocJs) (q : Legacy.TagQuery)
    (h : Legacy.collectWanted q = []) :
    Legacy.applyTagFilter items q = items := by
  unfold Legacy.applyTagFilter
  simp [h]

theorem mjs_tagFilter_all_iff (docs : List Mjs.DocRow) (tagsParam tagsModeParam : Option Str)
    (d : Mjs.DocRow)
    (hmode : lowerStr (orElseStr tagsModeParam (("all").data)) ≠ ("any").data) :
    d ∈ Mjs.tagFilterMjs docs tagsParam tagsModeParam ↔
      d ∈ docs ∧ ∀ t ∈ Mjs.lyraWantTags tagsParam, t ∈ d.tags := by
  unfold Mjs.tagFilterMjs
  simp only [if_neg hmode]
  by_cases hw : (Mjs.lyraWantTags tagsParam).isEmpty = true
  · have hwl : Mjs.lyraWantTags tagsParam = [] := List.isEmpty_iff.mp hw
    simp [hw, hwl]
  · have hwf : (Mjs.lyraWantTags tagsParam).isEmpty = false := by simpa using hw
    simp [hwf, List.mem_filter, List.all_eq_true, List.elem_iff]

theorem mjs_tagFilter_any_iff (docs : List Mjs.DocRow) (tagsParam tagsModeParam : Option Str)
    (d : Mjs.DocRow)
    (hmode : lowerStr (orElseStr tagsModeParam (("all").data)) = ("any").data)
    (hne : Mjs.lyraWantTags tagsParam ≠ []) :
    d ∈ Mjs.tagFilterMjs docs tagsParam tagsModeParam ↔
      d ∈ docs ∧ ∃ t ∈ Mjs.lyraWantTags tagsParam, t ∈ d.tags := by
  unfold Mjs.tagFilterMjs
  simp only [if_pos hmode]
  have hwf : (Mjs.lyraWantTags tagsParam).isEmpty = false := by
    cases h : Mjs.lyraWantTags tagsParam with
    | nil => exact absurd h hne
    | cons a l => rfl
  simp [hwf, List.mem_filter, List.any_eq_true, List.elem_iff]

theorem mjs_tagFilter_empty (docs : List Mjs.DocRow) (tagsParam tagsModeParam : Option Str)
    (h : Mjs.lyraWantTags tagsParam = []) :
    Mjs.tagFilterMjs docs tagsParam tagsModeParam = docs := by
  unfold Mjs.tagFilterMjs
  simp [h]

/-- C3: tag filtering with mode `"all"` (or any mode other than `"any"`,
`"all"` being the default) keeps exactly the documents whose tags contain
every requested tag; mode `"any"` keeps exactly those containing at least
one requested tag; an empty requested tag set keeps all documents.  The
first three conjuncts cover the legacy `applyTagFilter`, the last three
the inline filter of `GET /lyra/read` in `server.mjs`. -/
theorem C3_tag_filter_modes :
    (∀ (items : List Legacy.DocJs) (q : Legacy.TagQuery) (d : Legacy.DocJs),
      lowerStr (orElseStr q.tagsMode (("all").data)) ≠ ("any").data →
      (d ∈ Legacy.applyTagFilter items q ↔
        d ∈ items ∧ ∀ t ∈ Legacy.collectWanted q, t ∈ d.tags)) ∧
    (∀ (items : List Legacy.DocJs) (q : Legacy.TagQuery) (d : Legacy.DocJs),
      lowerStr (orElseStr q.tagsMode (("all").data)) = ("any").data →
      Legacy.collectWanted q ≠ [] →
      (d ∈ Legacy.applyTagFilter items q ↔
        d ∈ items ∧ ∃ t ∈ Legacy.collectWanted q, t ∈ d.tags)) ∧
    (∀ (items : List Legacy.DocJs) (q : Legacy.TagQuery),
      Legacy.collectWanted q = [] → Legacy.applyTagFilter items q = items) ∧
    (∀ (docs : List Mjs.DocRow) (tagsParam tagsModeParam : Option Str) (d : Mjs.DocRow),
      lowerStr (orElseStr tagsModeParam (("all").data)) ≠ ("any").data →
      (d ∈ Mjs.tagFilterMjs docs tagsParam tagsModeParam ↔
        d ∈ docs ∧ ∀ t ∈ Mjs.lyraWantTags tagsParam, t ∈ d.tags)) ∧
    (∀ (docs : List Mjs.DocRow) (tagsParam tagsModeParam : Option Str) (d : Mjs.DocRow),
      lowerStr (orElseStr tagsModeParam (("all").data)) = ("any").data →
      Mjs.lyraWantTags tagsParam ≠ [] →
      (d ∈ Mjs.tagFilterMjs docs tagsParam tagsModeParam ↔
        d ∈ docs ∧ ∃ t ∈ Mjs.lyraWantTags tagsParam, t ∈ d.tags)) ∧
    (∀ (docs : List Mjs.DocRow) (tagsParam tagsModeParam : Option Str),
      Mjs.lyraWantTags tagsParam = [] →
      Mjs.tagFilterMjs docs tagsParam tagsModeParam = docs) :=
  ⟨fun items q d hmode => legacy_tagFilter_all_iff items q d hmode,
   fun items q d hmode hne => legacy_tagFilter_any_iff items q d hmode hne,
   fun items q h => legacy_tagFilter_empty items q h,
   fun docs tp tmp d hmode => mjs_tagFilter_all_iff docs tp tmp d hmode,
   fun docs tp tmp d hmode hne => mjs_tagFilter_any_iff docs tp tmp d hmode hne,
   fun docs tp tmp h => mjs_tagFilter_empty docs tp tmp h⟩

/-- Witness for C3 at a concrete input: default mode with one requested
tag keeps the doc carrying it. -/
theorem C3_tag_filter_modes_witness :
    lowerStr (orElseStr (none : Option Str) (("all").data)) ≠ ("any").data ∧
    (docAB ∈ Legacy.applyTagFilter [docAB] { tag := [['a']] } ↔
      docAB ∈ [docAB] ∧ ∀ t ∈ Legacy.collectWanted { tag := [['a']] }, t ∈ docAB.tags) :=
  ⟨by decide, C3_tag_filter_modes.1 [docAB] { tag := [['a']] } docAB (by decide)⟩

/-! ### Map and filter helpers for the legacy state (C8–C10) -/

theorem mapGet_replace_of_any {α : Type} (m : List (Str × α)) (k : Str) (v : α)
    (h : m.any (fun p => decide (p.1 = k)) = true) :
    Legacy.mapGet (m.map (fun p => if p.1 = k then (k, v) else p)) k = some v := by
  induction m with
  | nil => simp at h
  | cons a rest ih =>
    by_cases ha : a.1 = k
    · unfold Legacy.mapGet
      rw [List.map_cons, if_pos ha, List.find?_cons_of_pos _ (by simp)]
      rfl
    · have h' : rest.any (fun p => decide (p.1 = k)) = true := by
        simp only [List.any_cons, Bool.or_eq_true] at h
        rcases h with h | h
        · exact absurd (of_decide_eq_true h) ha
        · exact h
      have hrec := ih h'
      unfold Legacy.mapGet at hrec ⊢
      rw [List.map_cons, if_neg ha, List.find?_cons_of_neg _ (by simpa using ha)]
      exact hrec

theorem mapGet_append_of_not_any {α : Type} (m : List (Str × α)) (k : Str) (v : α)
    (h : m.any (fun p => decide (p.1 = k)) = false) :
    Legacy.mapGet (m ++ [(k, v)]) k = some v := by
  induction m with
  | nil =>
    unfold Legacy.mapGet
    rw [List.nil_append, List.find?_cons_of_pos _ (by simp)]
    rfl
  | cons a rest ih =>
    simp only [List.any_cons, Bool.or_eq_false_iff] at h
    have ha : ¬ a.1 = k := by simpa using h.1
    have hrec := ih h.2
    unfold Legacy.mapGet at hrec ⊢
    rw [List.cons_append, List.find?_cons_of_neg _ (by simpa using ha)]
    exact hrec

theorem mapGet_mapSet_self {α : Type} (m : List (Str × α)) (k : Str) (v : α) :
    Legacy.mapGet (Legacy.mapSet m k v) k = some v := by
  unfold Legacy.mapSet
  by_cases h : m.any (fun p => decide (p.1 = k)) = true
  · rw [if_pos h]
    exact mapGet_replace_of_any m k v h
  · have hf : m.any (fun p => decide (p.1 = k)) = false := by
      cases hcase : m.any (fun p => decide (p.1 = k))
      · rfl
      · exact absurd hcase h
    rw [if_neg h]
    exact mapGet_append_of_not_any m k v hf

theorem mapGet_mapDel_self {α : Type} (m : List (Str × α)) (k : Str) :
    Legacy.mapGet (Legacy.mapDel m k) k = none := by
  unfold Legacy.mapGet Legacy.mapDel
  have hnone : (m.filter (fun p => decide (¬ p.1 = k))).find? (fun p => decide (p.1 = k))
      = none := by
    rw [List.find?_eq_none]
    intro x hx
    have h2 := (List.mem_filter.mp hx).2
    intro hcontra
    exact (of_decide_eq_true h2) (of_decide_eq_true hcontra)
  rw [hnone]
  rfl

theorem mem_of_applyTagFilter (items : List Legacy.DocJs) (q : Legacy.TagQuery)
    (d : Legacy.DocJs) (h : d ∈ Legacy.applyTagFilter items q) : d ∈ items := by
  unfold Legacy.applyTagFilter at h
  by_cases hw : (Legacy.collectWanted q).isEmpty = true
  · simpa [hw] using h
  · have hwf : (Legacy.collectWanted q).isEmpty = false := by simpa using hw
    simp only [hwf, Bool.false_eq_true, if_false] at h
    exact (List.mem_filter.mp h).1

theorem mem_of_applyMetaFilter (items : List Legacy.DocJs) (metaPairs : List (Str × Str))
    (d : Legacy.DocJs) (h : d ∈ Legacy.applyMetaFilter items metaPairs) : d ∈ items := by
  unfold Legacy.applyMetaFilter at h
  by_cases hw : metaPairs.isEmpty = true
  · simpa [hw] using h
  · have hwf : metaPairs.isEmpty = false := by simpa using hw
    simp only [hwf, Bool.false_eq_true, if_false] at h
    exact (List.mem_filter.mp h).1

theorem mem_of_titleTypeFilter (q : Legacy.ReadQuery) (items : List Legacy.DocJs)
    (d : Legacy.DocJs) (h : d ∈ Legacy.titleTypeFilter q items) : d ∈ items := by
  unfold Legacy.titleTypeFilter at h
  dsimp only at h
  split at h
  · have h1 := (List.mem_filter.mp h).1
    split at h1
    · split at h1
      · exact (List.mem_filter.mp h1).1
      · exact (List.mem_filter.mp h1).1
    · exact h1
  · split at h
    · split at h
      · exact (List.mem_filter.mp h).1
      · exact (List.mem_filter.mp h).1
    · exact h

theorem resolveProject_live (st : Legacy.JsState) (pid pname hpid : Option Str)
    (p : Legacy.ProjectJs) (h : Legacy.resolveProject st pid pname hpid = some p) :
    p.deleted_at = none := by
  unfold Legacy.resolveProject at h
  cases hc : Legacy.rawResolve st pid pname hpid with
  | none =>
    simp only [hc] at h
    exact absurd h (by simp)
  | some p0 =>
    simp only [hc] at h
    by_cases hdel : p0.deleted_at = none
    · rw [if_pos hdel, Option.some_inj] at h
      rw [← h]
      exact hdel
    · rw [if_neg hdel] at h
      exact absurd h (by simp)

/-- C8: soft-deleted entities are invisible to every read operation of
the legacy server: no document carrying a `deleted_at` marker appears in
the results of `GET /doc`, `GET /doc/:id`, `GET /lyra/read` or the
`GET /lyra/read-stream` selection, and project resolution never yields a
soft-deleted project. -/
theorem C8_soft_deleted_invisible :
    ∀ (st : Legacy.JsState) (q : Legacy.ReadQuery) (docId : Str) (d : Legacy.DocJs),
      (d ∈ (Legacy.getDocList st q).2 → d.deleted_at = none) ∧
      ((Legacy.getDocById st docId q).2 = some d → d.deleted_at = none) ∧
      (d ∈ (Legacy.lyraRead st q).2 → d.deleted_at = none) ∧
      (Legacy.readStreamDoc st q = some d → d.deleted_at = none) ∧
      (∀ p : Legacy.ProjectJs,
        Legacy.resolveProject st q.project_id q.project_name q.headerPid = some p →
          p.deleted_at = none) := by
  intro st q docId d
  refine ⟨?_, ?_, ?_, ?_, ?_⟩
  · intro hmem
    unfold Legacy.getDocList at hmem
    cases hres : Legacy.resolveProject st q.project_id q.project_name q.headerPid with
    | none =>
      simp only [hres] at hmem
      exact absurd hmem (List.not_mem_nil d)
    | some proj =>
      simp only [hres] at hmem
      have h1 := mem_of_applyMetaFilter _ _ _ hmem
      have h2 := mem_of_applyTagFilter _ _ _ h1
      have h3 := mem_of_titleTypeFilter _ _ _ h2
      have h4 := (List.mem_filter.mp h3).2
      exact (of_decide_eq_true h4).2
  · intro hsome
    unfold Legacy.getDocById at hsome
    cases hres : Legacy.resolveProject st q.project_id q.project_name q.headerPid with
    | none =>
      simp only [hres] at hsome
      exact absurd hsome (by simp)
    | some proj =>
      simp only [hres] at hsome
      cases hdoc : Legacy.mapGet st.docs docId with
      | none =>
        simp only [hdoc] at hsome
        exact absurd hsome (by simp)
      | some doc =>
        simp only [hdoc] at hsome
        by_cases hcond : doc.project_id ≠ proj.id ∨ doc.deleted_at ≠ none
        · rw [if_pos hcond] at hsome
          exact absurd hsome (by simp)
        · rw [if_neg hcond] at hsome
          push_neg at hcond
          have hd : doc = d := by simpa using hsome
          rw [← hd]
          exact hcond.2
  · intro hmem
    unfold Legacy.lyraRead at hmem
    cases hres : Legacy.resolveProject st q.project_id q.project_name q.headerPid with
    | none =>
      simp only [hres] at hmem
      exact absurd hmem (List.not_mem_nil d)
    | some proj =>
      simp only [hres] at hmem
      by_cases hid : optTruthy q.id = true
      · rw [if_pos hid] at hmem
        cases hdoc : Legacy.mapGet st.docs (optVal q.id) with
        | none =>
          simp only [hdoc] at hmem
          exact absurd hmem (List.not_mem_nil d)
        | some doc =>
          simp only [hdoc] at hmem
          by_cases hcond : doc.project_id ≠ proj.id ∨ doc.deleted_at ≠ none
          · rw [if_pos hcond] at hmem
            exact absurd hmem (List.not_mem_nil d)
          · rw [if_neg hcond] at hmem
            push_neg at hcond
            have hd : d = doc := by simpa using hmem
            rw [hd]
            exact hcond.2
      · rw [if_neg hid] at hmem
        split at hmem
        · exact absurd hmem (List.not_mem_nil d)
        · have h1 := (List.mem_filter.mp hmem).1
          have h2 := mem_of_applyTagFilter _ _ _ h1
          have h3 := mem_of_titleTypeFilter _ _ _ h2
          have h4 := (List.mem_filter.mp h3).2
          exact (of_decide_eq_true h4).2
  · intro hsome
    unfold Legacy.readStreamDoc at hsome
    cases hres : Legacy.resolveProject st q.project_id q.project_name q.headerPid with
    | none =>
      simp only [hres] at hsome
      exact absurd hsome (by simp)
    | some proj =>
      simp only [hres] at hsome
      by_cases hid : optTruthy q.id = true
      · rw [if_pos hid] at hsome
        cases hdoc : Legacy.mapGet st.docs (optVal q.id) with
        | none =>
          simp only [hdoc] at hsome
          exact absurd hsome (by simp)
        | some doc =>
          simp only [hdoc] at hsome
          by_cases hcond : doc.project_id ≠ proj.id ∨ doc.deleted_at ≠ none
          · rw [if_pos hcond] at hsome
            exact absurd hsome (by simp)
          · rw [if_neg hcond] at hsome
            push_neg at hcond
            have hd : doc = d := by simpa using hsome
            rw [← hd]
            exact hcond.2
      · rw [if_neg hid] at hsome
        have hmem := List.mem_of_mem_head? hsome
        have h1 := mem_of_applyMetaFilter _ _ _ hmem
        have h2 := mem_of_applyTagFilter _ _ _ h1
        have h3 := mem_of_titleTypeFilter _ _ _ h2
        have h4 := (List.mem_filter.mp h3).2
        exact (of_decide_eq_true h4).2
  · intro p hsome
    exact resolveProject_live st q.project_id q.project_name q.headerPid p hsome

/-- Witness for C8 at a concrete input: a live doc listed by `GET /doc`. -/
theorem C8_soft_deleted_invisible_witness :
    docW ∈ (Legacy.getDocList stW { project_id := some ['1'] }).2 ∧ docW.deleted_at = none :=
  ⟨by decide, (C8_soft_deleted_invisible stW { project_id := some ['1'] } ['d'] docW).1 (by decide)⟩

/-- C9: soft delete followed by restore is a round trip: for a stored
document (whose `id` field, as everywhere in the server, equals its map
key), `DELETE /doc/:id` without purge and with no confirmation header
succeeds, and a following `POST /doc/:id/restore` puts the document back
in the live map with all its original fields and without the
`deleted_at`/`deleted_by` markers, removing its snapshot from the
trash. -/
theorem C9_delete_restore_roundtrip (st : Legacy.JsState) (docId now : Str)
    (doc : Legacy.DocJs) (hget : Legacy.mapGet st.docs docId = some doc)
    (hid : doc.id = docId) :
    (Legacy.deleteDocEp st docId (("false").data) none now).1 = Legacy.resOk ∧
    (Legacy.restoreDocEp (Legacy.deleteDocEp st docId (("false").data) none now).2 docId).1
      = Legacy.resOk ∧
    Legacy.mapGet (Legacy.restoreDocEp
        (Legacy.deleteDocEp st docId (("false").data) none now).2 docId).2.docs docId
      = some { doc with deleted_at := none, deleted_by := none } ∧
    Legacy.mapGet (Legacy.restoreDocEp
        (Legacy.deleteDocEp st docId (("false").data) none now).2 docId).2.trashDocs docId
      = none := by
  have hdel : Legacy.deleteDocEp st docId (("false").data) none now
      = (Legacy.resOk, Legacy.softDeleteDoc st now (("api").data) doc) := by
    unfold Legacy.deleteDocEp
    simp only [hget]
    rw [if_neg (by simp [optTruthy])]
    rw [if_neg (by decide)]
  have htrash : Legacy.mapGet (Legacy.softDeleteDoc st now (("api").data) doc).trashDocs docId
      = some (if doc.deleted_at = none
          then { doc with deleted_at := some now, deleted_by := some (("api").data) }
          else doc) := by
    unfold Legacy.softDeleteDoc
    dsimp only
    rw [← hid]
    exact mapGet_mapSet_self _ _ _
  have hrestored : ({ (if doc.deleted_at = none
        then { doc with deleted_at := some now, deleted_by := some (("api").data) } else doc)
        with deleted_at := none, deleted_by := none } : Legacy.DocJs)
      = { doc with deleted_at := none, deleted_by := none } := by
    by_cases h : doc.deleted_at = none
    · rw [if_pos h]
    · rw [if_neg h]
  refine ⟨by rw [hdel], ?_, ?_, ?_⟩
  · rw [hdel]
    unfold Legacy.restoreDocEp
    simp only [htrash]
  · rw [hdel]
    unfold Legacy.restoreDocEp
    simp only [htrash]
    rw [hrestored]
    exact mapGet_mapSet_self _ _ _
  · rw [hdel]
    unfold Legacy.restoreDocEp
    simp only [htrash]
    exact mapGet_mapDel_self _ _

/-- Witness for C9 at a concrete input. -/
theorem C9_delete_restore_roundtrip_witness :
    Legacy.mapGet stW.docs ['d'] = some docW ∧
    Legacy.mapGet (Legacy.restoreDocEp
        (Legacy.deleteDocEp stW ['d'] (("false").data) none ['n']).2 ['d']).2.docs ['d']
      = some { docW with deleted_at := none, deleted_by := none } :=
  ⟨by decide,
   (C9_delete_restore_roundtrip stW ['d'] ['n'] docW (by decide) (by decide)).2.2.1⟩

/-- C10: deleting a project is guarded and atomic on failure:
`DELETE /projects/:id` answers 412 when the `x-confirm-name` header is
absent or differs from the project's exact name, answers 409 when the
project still has a live document and `cascade` is not `'true'` (given
the header matched a non-empty project name, JS-truthiness obliging), and
in both failure cases the state is unchanged. -/
theorem C10_delete_project_guards (st : Legacy.JsState) (projId cascade purge now : Str)
    (confirmName : Option Str) (proj : Legacy.ProjectJs)
    (hget : Legacy.mapGet st.projects projId = some proj) :
    (confirmName ≠ some proj.name →
      Legacy.deleteProjectEp st projId cascade purge confirmName now
        = (Legacy.resErr 412 (("confirmation required").data), st)) ∧
    (confirmName = some proj.name → proj.name ≠ [] →
      (Legacy.mapValues st.docs).filter
          (fun d => decide (d.project_id = proj.id ∧ d.deleted_at = none)) ≠ [] →
      cascade ≠ ("true").data →
      Legacy.deleteProjectEp st projId cascade purge confirmName now
        = (Legacy.resErr 409 (("project has documents").data), st)) := by
  constructor
  · intro hcn
    unfold Legacy.deleteProjectEp
    simp only [hget]
    have hcond : ¬ (optTruthy confirmName = true) ∨ optVal confirmName ≠ proj.name := by
      cases confirmName with
      | none => exact Or.inl (by simp [optTruthy])
      | some s =>
        by_cases hs : s = []
        · subst hs
          exact Or.inl (by simp [optTruthy])
        · refine Or.inr ?_
          simp only [optVal, Option.getD_some]
          intro hc
          exact hcn (by rw [hc])
    rw [if_pos hcond]
  · intro hcn hname hch hcas
    unfold Legacy.deleteProjectEp
    simp only [hget]
    have hcondf : ¬ (¬ (optTruthy confirmName = true) ∨ optVal confirmName ≠ proj.name) := by
      rw [hcn]
      push_neg
      constructor
      · cases hn : proj.name with
        | nil => exact absurd hn hname
        | cons a l => simp [optTruthy, hn]
      · simp [optVal]
    rw [if_neg hcondf]
    rw [if_pos ⟨by
      intro hemp
      exact hch (List.isEmpty_iff.mp hemp), hcas⟩]

/-- Witness for C10 at a concrete input: deleting without the
confirmation header answers 412 and changes nothing. -/
theorem C10_delete_project_guards_witness :
    (none : Option Str) ≠ some projW.name ∧
    Legacy.deleteProjectEp stW ['1'] (("false").data) (("false").data) none ['n']
      = (Legacy.resErr 412 (("confirmation required").data), stW) :=
  ⟨by decide,
   (C10_delete_project_guards stW ['1'] (("false").data) (("false").data) ['n'] none projW
      (by decide)).1 (by decide)⟩
